import Mathlib

/-!
Verification of the LoadImageX metadata-extraction pipeline
===========================================================

This file is a shallow embedding, in Lean 4, of the two core components of
`src/web/js/loadimagex.js`:

* `parsePNGMetadata` — the PNG container metadata reader, and
* `extractPromptsFromWorkflow` (with its inner helpers `isTextEncodingNode`
  and `extractTextFromNode`) — the prompt graph resolver.

Modelling conventions:

* A binary buffer (`ArrayBuffer`) is a `List Nat` of byte values; a real
  buffer always holds values `< 256`, which appears as a hypothesis where it
  matters.
* `DataView.getUint8` / `DataView.getUint32` throw a `RangeError` on
  out-of-range access; fallible reads are therefore embedded in
  `Except Unit`, where `.error ()` stands for a thrown JavaScript exception.
* JavaScript values flowing through the resolver are modelled by the
  inductive `JVal` (undefined, null, booleans, numbers, strings, arrays,
  objects).  JSON numbers are modelled as `Int`; the claims under study never
  exercise fractional values.  A JS object is modelled as its field list in
  enumeration order (the order `for...in` visits the keys).
* Property access `v.k` on `null`/`undefined` throws, hence `getProp` lives
  in `Except Unit`; where the source has already checked the receiver truthy,
  access cannot throw and the total `getField` is used.
* The mutable `visited` `Set` of `extractTextFromNode` is threaded explicitly
  as a `List String`; the recursion is driven by a fuel parameter (`none`
  meaning fuel exhaustion, which the fuel-sufficiency theorem below proves
  unreachable for the fuel the program supplies).
* The JS object `metadata` built by the reader is modelled as the list of its
  insertions in order; `lookupLast` gives the observable mapping (assignment
  to an existing key overwrites, i.e. the last insertion wins).
-/

/-! ## Byte-level primitives (DataView) -/

/-- `DataView.getUint8`: read one byte, throwing (`.error`) when out of range. -/
def getUint8 (bytes : List Nat) (i : Nat) : Except Unit Nat :=
  if h : i < bytes.length then .ok bytes[i] else .error ()

/-- `DataView.getUint32` (big-endian, the JS default): read four bytes,
throwing when any of them is out of range. -/
def getUint32 (bytes : List Nat) (i : Nat) : Except Unit Nat :=
  match getUint8 bytes i, getUint8 bytes (i+1), getUint8 bytes (i+2), getUint8 bytes (i+3) with
  | .ok b0, .ok b1, .ok b2, .ok b3 => .ok (b0 * 2^24 + b1 * 2^16 + b2 * 2^8 + b3)
  | _, _, _, _ => .error ()

/-! ## WHATWG UTF-8 decoding (`TextDecoder('utf-8').decode`) -/

/-- The replacement character U+FFFD emitted for malformed input. -/
def replChar : Char := Char.ofNat 0xFFFD

/-- Decoder state of the WHATWG UTF-8 decoder. -/
structure Utf8State where
  codePoint : Nat
  bytesSeen : Nat
  bytesNeeded : Nat
  lowerB : Nat
  upperB : Nat
deriving DecidableEq

/-- Initial UTF-8 decoder state. -/
def utf8Init : Utf8State := ⟨0, 0, 0, 0x80, 0xBF⟩

/-- Consume one byte in the initial decoder state (always consumes). -/
def utf8ConsumeInit (b : Nat) : Utf8State × List Char :=
  if b ≤ 0x7F then (utf8Init, [Char.ofNat b])
  else if 0xC2 ≤ b ∧ b ≤ 0xDF then ({ utf8Init with bytesNeeded := 1, codePoint := b % 32 }, [])
  else if 0xE0 ≤ b ∧ b ≤ 0xEF then
    ({ codePoint := b % 16, bytesSeen := 0, bytesNeeded := 2,
       lowerB := if b = 0xE0 then 0xA0 else 0x80,
       upperB := if b = 0xED then 0x9F else 0xBF }, [])
  else if 0xF0 ≤ b ∧ b ≤ 0xF4 then
    ({ codePoint := b % 8, bytesSeen := 0, bytesNeeded := 3,
       lowerB := if b = 0xF0 then 0x90 else 0x80,
       upperB := if b = 0xF4 then 0x8F else 0xBF }, [])
  else (utf8Init, [replChar])

/-- Consume one byte in an arbitrary decoder state.  An invalid continuation
byte emits U+FFFD and reprocesses the byte in the initial state, exactly as
the WHATWG algorithm restores the byte to the stream. -/
def utf8Process (s : Utf8State) (b : Nat) : Utf8State × List Char :=
  if s.bytesNeeded = 0 then utf8ConsumeInit b
  else if b < s.lowerB ∨ s.upperB < b then
    let r := utf8ConsumeInit b
    (r.1, replChar :: r.2)
  else
    let cp := s.codePoint * 64 + b % 64
    let seen := s.bytesSeen + 1
    if seen = s.bytesNeeded then (utf8Init, [Char.ofNat cp])
    else ({ codePoint := cp, bytesSeen := seen, bytesNeeded := s.bytesNeeded,
            lowerB := 0x80, upperB := 0xBF }, [])

/-- Run the decoder over a byte list; a pending incomplete sequence at end of
input emits one U+FFFD. -/
def utf8DecodeLoop : Utf8State → List Nat → List Char
  | s, [] => if s.bytesNeeded = 0 then [] else [replChar]
  | s, b :: bs =>
    let r := utf8Process s b
    r.2 ++ utf8DecodeLoop r.1 bs

/-- `TextDecoder('utf-8').decode`: UTF-8 decode with replacement, stripping a
leading byte-order mark (the decoder's default `ignoreBOM = false`). -/
def utf8Decode (bs : List Nat) : List Char :=
  utf8DecodeLoop utf8Init (if bs.take 3 = [0xEF, 0xBB, 0xBF] then bs.drop 3 else bs)

/-! ## The PNG metadata reader -/

/-- The NUL character used to split `keyword\0value` payloads. -/
def nulChar : Char := Char.ofNat 0

/-- `text.indexOf('\0')` followed by the two `substring` calls: split the
decoded chunk text at the first NUL; `none` when no NUL occurs. -/
def splitNul (cs : List Char) : Option (String × String) :=
  match cs.findIdx? (fun c => c = nulChar) with
  | none => none
  | some i => some (String.mk (cs.take i), String.mk (cs.drop (i+1)))

/-- The PNG signature bytes checked at offset 0. -/
def pngSignature : List Nat := [0x89, 0x50, 0x4E, 0x47, 0x0D, 0x0A, 0x1A, 0x0A]

/-- The signature loop of `parsePNGMetadata`: check bytes `i, i+1, ..., 7`
against the signature.  `.ok false` models `return null` on a mismatch;
`.error ()` models the `RangeError` thrown by `getUint8` past the end. -/
def checkSignatureFrom (bytes : List Nat) (i : Nat) : Except Unit Bool :=
  if i < 8 then
    match getUint8 bytes i with
    | .error _ => .error ()
    | .ok b => if b = pngSignature.getD i 0 then
        checkSignatureFrom bytes (i+1)
      else .ok false
  else .ok true
termination_by 8 - i

/-- The chunk-scanning loop of `parsePNGMetadata`, starting at `offset` with
the metadata insertions accumulated so far.  Mirrors the source loop: read the
4-byte length and 4-byte type (throwing when out of range), for `tEXt`/`iTXt`
slice the payload (the `Uint8Array` constructor throws when it overruns the
buffer), decode it and insert `keyword → value` when a NUL is present, then
skip payload and CRC, stopping after an `IEND` chunk or at buffer end. -/
def parseChunks (bytes : List Nat) (offset : Nat) (acc : List (String × String)) :
    Except Unit (List (String × String)) :=
  if h : offset < bytes.length then
    match getUint32 bytes offset, getUint8 bytes (offset+4), getUint8 bytes (offset+5),
        getUint8 bytes (offset+6), getUint8 bytes (offset+7) with
    | .ok len, .ok t0, .ok t1, .ok t2, .ok t3 =>
      let chunkType := String.mk [Char.ofNat t0, Char.ofNat t1, Char.ofNat t2, Char.ofNat t3]
      let accE : Except Unit (List (String × String)) :=
        if chunkType = "tEXt" ∨ chunkType = "iTXt" then
          if offset + 8 + len ≤ bytes.length then
            match splitNul (utf8Decode ((bytes.drop (offset + 8)).take len)) with
            | some kv => .ok (acc ++ [kv])
            | none => .ok acc
          else .error ()
        else .ok acc
      match accE with
      | .error _ => .error ()
      | .ok acc' =>
        if chunkType = "IEND" then .ok acc'
        else parseChunks bytes (offset + 8 + len + 4) acc'
    | _, _, _, _, _ => .error ()
  else .ok acc
termination_by bytes.length - offset
decreasing_by simp_wf; omega

/-- `parsePNGMetadata`: `.ok none` models `return null` (signature mismatch),
`.ok (some m)` models returning the metadata object with insertions `m`, and
`.error ()` models an exception escaping to the caller. -/
def parsePNGMetadata (bytes : List Nat) : Except Unit (Option (List (String × String))) :=
  match checkSignatureFrom bytes 0 with
  | .error _ => .error ()
  | .ok false => .ok none
  | .ok true => (parseChunks bytes 8 []).map some

/-- Observable lookup on a JS object modelled by its insertion list: the last
insertion for a key wins. -/
def lookupLast (m : List (String × String)) (k : String) : Option String :=
  (m.reverse.find? (fun p => p.1 = k)).map (fun p => p.2)

/-! ## Abstract chunk-level view of a well-formed container -/

/-- One container chunk: a 4-byte type tag, payload, and 4 CRC bytes. -/
structure PNGChunk where
  typeB : List Nat
  data : List Nat
  crc : List Nat
deriving DecidableEq

/-- Big-endian 4-byte encoding of a 32-bit length. -/
def u32be (n : Nat) : List Nat :=
  [n / 2^24 % 256, n / 2^16 % 256, n / 2^8 % 256, n % 256]

/-- Serialized form of one chunk: length, type, payload, CRC. -/
def chunkBytes (c : PNGChunk) : List Nat :=
  u32be c.data.length ++ c.typeB ++ c.data ++ c.crc

/-- Serialized form of a chunk sequence. -/
def chunksBytes (cs : List PNGChunk) : List Nat :=
  (cs.map chunkBytes).flatten

/-- Well-formedness of a chunk: 4 type bytes and 4 CRC bytes, all byte-sized,
and a payload length that fits the 4-byte length field. -/
def chunkWF (c : PNGChunk) : Prop :=
  c.typeB.length = 4 ∧ (∀ b ∈ c.typeB, b < 256) ∧ c.crc.length = 4 ∧ c.data.length < 2^32

instance (c : PNGChunk) : Decidable (chunkWF c) := by
  unfold chunkWF; infer_instance

/-- The type tag of a chunk as the string the source compares against. -/
def chunkTypeName (c : PNGChunk) : String :=
  String.mk (c.typeB.map Char.ofNat)

/-- The keyword/value pair a chunk contributes to the metadata: only
`tEXt`/`iTXt` chunks whose decoded payload contains a NUL contribute. -/
def chunkEntryKV (c : PNGChunk) : Option (String × String) :=
  if chunkTypeName c = "tEXt" ∨ chunkTypeName c = "iTXt" then
    splitNul (utf8Decode c.data)
  else none

/-- The chunks the reader scans: everything up to and including the first
`IEND` chunk (all chunks when no `IEND` occurs). -/
def chunksUpToIEND : List PNGChunk → List PNGChunk
  | [] => []
  | c :: cs => if chunkTypeName c = "IEND" then [c] else c :: chunksUpToIEND cs

/-- Chunk-level semantics of the scan loop: fold the contributed entries over
the chunk list, stopping after the first `IEND`. -/
def processChunks : List PNGChunk → List (String × String) → List (String × String)
  | [], acc => acc
  | c :: cs, acc =>
    let acc' := match chunkEntryKV c with
      | some kv => acc ++ [kv]
      | none => acc
    if chunkTypeName c = "IEND" then acc' else processChunks cs acc'

/-- The value the specification promises for a keyword: the value of the last
`tEXt`/`iTXt` chunk before (or at) the first `IEND` carrying that keyword. -/
def lastKeywordValue (cs : List PNGChunk) (k : String) : Option String :=
  (((chunksUpToIEND cs).filterMap chunkEntryKV).reverse.find? (fun p => p.1 = k)).map
    (fun p => p.2)

/-! ## JavaScript values and primitive operations for the resolver -/

/-- A JavaScript value as the resolver sees it (JSON data plus `undefined`).
Numbers are modelled as integers; an object is its field list in `for...in`
enumeration order. -/
inductive JVal where
  | undefined : JVal
  | jnull : JVal
  | bool : Bool → JVal
  | num : Int → JVal
  | str : String → JVal
  | arr : List JVal → JVal
  | obj : List (String × JVal) → JVal

/-- JavaScript truthiness. -/
def truthy : JVal → Bool
  | .undefined => false
  | .jnull => false
  | .bool b => b
  | .num n => decide (n ≠ 0)
  | .str s => decide (s ≠ "")
  | .arr _ => true
  | .obj _ => true

/-- `Array.isArray`. -/
def isArr : JVal → Bool
  | .arr _ => true
  | _ => false

/-- Total property access, usable where the source has already checked the
receiver truthy (so the access cannot throw): objects by key, arrays and
strings by index string, everything else gives `undefined`. -/
def getField : JVal → String → JVal
  | .obj fs, k => (((fs.find? (fun p => p.1 = k)).map (fun p => p.2)).getD .undefined)
  | .arr xs, k =>
    (((xs.enum.find? (fun p => toString p.1 = k)).map (fun p => p.2)).getD .undefined)
  | .str s, k =>
    (((s.data.enum.find? (fun p => toString p.1 = k)).map
        (fun p => JVal.str (String.mk [p.2]))).getD .undefined)
  | _, _ => .undefined

/-- Property access `v[k]` as an operation that throws (`.error`) on `null`
and `undefined` receivers, as in JavaScript. -/
def getProp (v : JVal) (k : String) : Except Unit JVal :=
  match v with
  | .undefined => .error ()
  | .jnull => .error ()
  | _ => .ok (getField v k)

/-- Element access `v[i]` for a numeric index; only used on values the source
has established to be arrays. -/
def jIndex (v : JVal) (i : Nat) : JVal :=
  match v with
  | .arr xs => xs.getD i .undefined
  | _ => .undefined

mutual
/-- JavaScript `String(v)` conversion for the values the resolver handles. -/
def jToString : JVal → String
  | .undefined => "undefined"
  | .jnull => "null"
  | .bool true => "true"
  | .bool false => "false"
  | .num n => toString n
  | .str s => s
  | .arr xs => String.intercalate "," (jToStringList xs)
  | .obj _ => "[object Object]"

/-- Stringification of array elements for `Array.prototype.join`/`toString`:
`null` and `undefined` become empty strings. -/
def jToStringList : List JVal → List String
  | [] => []
  | .undefined :: vs => "" :: jToStringList vs
  | .jnull :: vs => "" :: jToStringList vs
  | v :: vs => jToString v :: jToStringList vs
end

/-- `Array.prototype.join` with an explicit separator: elements are
stringified with `null`/`undefined` as empty strings. -/
def jsArrayJoin (xs : List JVal) (sep : String) : String :=
  String.intercalate sep (jToStringList xs)

/-- The entries `for...in` iterates, paired with the values `v[key]` yields:
object fields in enumeration order, array and string indices. -/
def jEntries : JVal → List (String × JVal)
  | .obj fs => fs
  | .arr xs => xs.enum.map (fun p => (toString p.1, p.2))
  | .str s => s.data.enum.map (fun p => (toString p.1, JVal.str (String.mk [p.2])))
  | _ => []

/-- The keys `for...in` iterates. -/
def jKeys (v : JVal) : List String :=
  (jEntries v).map (fun p => p.1)

/-- Is `sub` a prefix of `l`? -/
def charsPrefix : List Char → List Char → Bool
  | [], _ => true
  | _ :: _, [] => false
  | a :: as, b :: bs => a = b && charsPrefix as bs

/-- Does `l` contain `sub` as a contiguous run? -/
def charsContain (sub : List Char) : List Char → Bool
  | [] => charsPrefix sub []
  | b :: bs => charsPrefix sub (b :: bs) || charsContain sub bs

/-- `s.includes(sub)` on JavaScript strings. -/
def strIncludes (s sub : String) : Bool :=
  charsContain sub.data s.data

/-- `s.toLowerCase()`: character-wise lowering (structural form of
`String.toLower`). -/
def jsToLower (s : String) : String :=
  String.mk (s.data.map Char.toLower)

/-- Truthiness of the `positiveNodeId` / `negativeNodeId` variables, which
hold `null` (`none`) or a string: the empty string is falsy. -/
def optTruthy : Option String → Bool
  | none => false
  | some s => decide (s ≠ "")

/-- `a || b` on JavaScript values. -/
def jor (a b : JVal) : JVal :=
  if truthy a then a else b

/-! ## The prompt graph resolver -/

/-- The `INPUT_PATTERNS.positive` configuration list. -/
def INPUT_PATTERNS_positive : List String := ["positive", "conditioning_positive", "pos"]

/-- The `INPUT_PATTERNS.negative` configuration list. -/
def INPUT_PATTERNS_negative : List String := ["negative", "conditioning_negative", "nag_negative", "neg"]

/-- The `textEncodingTypes` list of `isTextEncodingNode`. -/
def textEncodingTypes : List String :=
  ["CLIPTextEncode", "CLIPTextEncodeFlux", "StringConcatenate", "String Literal",
   "ImpactConcatConditionings", "PCLazyTextEncode", "ImpactWildcardProcessor",
   "TextEncodeQwenImageEdit"]

/-- `isTextEncodingNode`: the node's `class_type` is one of the recognized
text-encoding tags.  Only called on truthy nodes, so the access is total. -/
def isTextEncodingNode (node : JVal) : Bool :=
  match getField node "class_type" with
  | .str s => textEncodingTypes.contains s
  | _ => false

/-- The result object `prompts = { positive: "", negative: "" }`. -/
structure Prompts where
  positive : JVal
  negative : JVal

/-- Does `node.inputs[pat]` hold a truthy array for this pattern?  (The
`node.inputs[pattern] && Array.isArray(node.inputs[pattern])` test.) -/
def patternEdge (inputs : JVal) (pat : String) : Bool :=
  truthy (getField inputs pat) && isArr (getField inputs pat)

/-- One candidate record of Step 1 (`nodeId`, `node`, `priority`; the
`hasPositive`/`hasNegative` flags are recomputed from `node.inputs` where the
source reuses them). -/
structure Candidate where
  nodeId : String
  node : JVal
  priority : Nat

/-- One node of the Step 1 scan: `node.inputs` is accessed (throwing on
`null`/`undefined` nodes) and the node is appended as a candidate when a
channel pattern matches a truthy array input. -/
def stageAStep (acc : List Candidate) (p : String × JVal) : Except Unit (List Candidate) := do
  let inputs ← getProp p.2 "inputs"
  if truthy inputs then
    let hasPositive := INPUT_PATTERNS_positive.any (fun pat => patternEdge inputs pat)
    let hasNegative := INPUT_PATTERNS_negative.any (fun pat => patternEdge inputs pat)
    if hasPositive || hasNegative then
      pure (acc ++ [⟨p.1, p.2,
        (if hasPositive then 1 else 0) + (if hasNegative then 1 else 0)⟩])
    else
      pure acc
  else
    pure acc

/-- Step 1: collect candidate nodes exposing a positive/negative channel
input. -/
def stageACandidates (entries : List (String × JVal)) : Except Unit (List Candidate) :=
  entries.foldlM stageAStep []

/-- Insert a candidate into a priority-descending list after all entries of
equal or higher priority (the behaviour of the stable
`candidateNodes.sort((a, b) => b.priority - a.priority)`). -/
def insertByPriority (c : Candidate) : List Candidate → List Candidate
  | [] => [c]
  | d :: rest => if d.priority < c.priority then c :: d :: rest else d :: insertByPriority c rest

/-- Step 2: stable sort by priority, descending. -/
def sortCandidates (cs : List Candidate) : List Candidate :=
  cs.foldl (fun acc c => insertByPriority c acc) []

/-- Step 3: walk the ranked candidates, taking the first matching producer
edge for each still-unset side (`String(node.inputs[pattern][0])`).  The
source's early `break` once both are set is behaviourally the identity on the
remaining iterations, which this fold makes explicit. -/
def selectChannelIds : List Candidate → Option String → Option String →
    Option String × Option String
  | [], pos, neg => (pos, neg)
  | c :: rest, pos, neg =>
    let inputs := getField c.node "inputs"
    let pos' := if optTruthy pos then pos else
      match INPUT_PATTERNS_positive.find? (fun pat => patternEdge inputs pat) with
      | some pat => some (jToString (jIndex (getField inputs pat) 0))
      | none => pos
    let neg' := if optTruthy neg then neg else
      match INPUT_PATTERNS_negative.find? (fun pat => patternEdge inputs pat) with
      | some pat => some (jToString (jIndex (getField inputs pat) 0))
      | none => neg
    selectChannelIds rest pos' neg'

/-- The `node._meta?.title?.toLowerCase().includes('negative')` test of
Step 4: optional chaining short-circuits an absent `_meta`/`title` to a falsy
`undefined`, while `toLowerCase` on a non-string title throws. -/
def metaTitleIncludesNegative (node : JVal) : Except Unit Bool :=
  match getField node "_meta" with
  | .undefined => .ok false
  | .jnull => .ok false
  | m =>
    match getField m "title" with
    | .undefined => .ok false
    | .jnull => .ok false
    | .str s => .ok (strIncludes (jsToLower s) "negative")
    | _ => .error ()

/-- The `isNegative` test of Step 4 with its short-circuit evaluation. -/
def isNegativeKey (inputKey : String) (node : JVal) : Except Unit Bool :=
  if strIncludes (jsToLower inputKey) "negative" then .ok true
  else if strIncludes (jsToLower inputKey) "nag" then .ok true
  else metaTitleIncludesNegative node

/-- One input entry of the Step 4 scan: when the input value is a nonempty
array whose head resolves to a text-encoding node, assign a still-unset
channel id according to the `isNegative` naming heuristic. -/
def stageBInput (w : JVal) (node : JVal) (ids : Option String × Option String)
    (q : String × JVal) : Except Unit (Option String × Option String) :=
  match q.2 with
  | .arr xs =>
    if xs.length > 0 then do
      let connectedNode := getField w (jToString (jIndex q.2 0))
      if truthy connectedNode && isTextEncodingNode connectedNode then do
        let isNeg ← isNegativeKey q.1 node
        if isNeg ∧ ¬ optTruthy ids.2 then
          pure (ids.1, some (jToString (jIndex q.2 0)))
        else if ¬ isNeg ∧ ¬ optTruthy ids.1 then
          pure (some (jToString (jIndex q.2 0)), ids.2)
        else
          pure ids
      else
        pure ids
    else
      pure ids
  | _ => pure ids

/-- Step 4 body: scan every producer-edge-valued input of every node and
assign still-unset channel ids from edges into text-encoding nodes. -/
def stageBScan (w : JVal) (entries : List (String × JVal))
    (ids : Option String × Option String) : Except Unit (Option String × Option String) :=
  entries.foldlM (fun ids p => do
    let inputs ← getProp p.2 "inputs"
    if truthy inputs then
      (jEntries inputs).foldlM (stageBInput w p.2) ids
    else
      pure ids) ids

/-- Step 4 with its guard: only runs when a side is still unresolved. -/
def stageB (w : JVal) (entries : List (String × JVal))
    (ids : Option String × Option String) : Except Unit (Option String × Option String) :=
  if ¬ optTruthy ids.1 ∨ ¬ optTruthy ids.2 then stageBScan w entries ids else .ok ids

/-- Is a JS value exactly the given string (`===` against a string literal)? -/
def jStrEq (v : JVal) (s : String) : Bool :=
  match v with
  | .str t => t = s
  | _ => false

/-- `node.class_type === tag` for a truthy node. -/
def classTypeIs (node : JVal) (tag : String) : Bool :=
  jStrEq (getField node "class_type") tag

/-- Is a JS value `undefined` (`!== undefined` tests)? -/
def isUndefined : JVal → Bool
  | .undefined => true
  | _ => false

/-- The `for (let i = 1; i <= 10; i++)` loop of the `ImpactConcatConditionings`
branch, threading the shared visited set and collecting the truthy results;
`extract` is the recursive extraction at the decremented fuel.  The JS local
`condInput` is inlined. -/
def concatLoop (extract : String → List String → Option (JVal × List String)) (inputs : JVal) :
    List Nat → List String → List JVal → Option (List JVal × List String)
  | [], visited, acc => some (acc, visited)
  | i :: is, visited, acc =>
    if truthy (getField inputs ("conditioning" ++ toString i)) ∧
        isArr (getField inputs ("conditioning" ++ toString i)) then
      match extract (jToString (jIndex (getField inputs ("conditioning" ++ toString i)) 0))
          visited with
      | none => none
      | some r => concatLoop extract inputs is r.2 (if truthy r.1 then acc ++ [r.1] else acc)
    else concatLoop extract inputs is visited acc

/-- `extractTextFromNode(nodeId, visited)`: recursive text extraction with the
visited-set cycle guard, dispatching on `class_type` in source order.  The
workflow `w` is the (truthy) closure variable; the extra fuel argument drives
the recursion, `none` meaning fuel exhaustion — unreachable for the fuel the
program supplies, see the fuel-sufficiency theorem.  The JS locals (`node`,
`inputs`, `text`, ...) are inlined as their defining expressions. -/
def extractTextFromNode (w : JVal) : Nat → String → List String → Option (JVal × List String)
  | 0, _, _ => none
  | fuel + 1, nodeId, visited =>
    if nodeId = "" ∨ nodeId ∈ visited then some (.str "", visited)
    else if ¬ truthy (getField w nodeId) then some (.str "", nodeId :: visited)
    else if classTypeIs (getField w nodeId) "ImpactWildcardProcessor" ∧
        truthy (getField (getField w nodeId) "inputs") then
      some (jor (jor (getField (getField (getField w nodeId) "inputs") "populated_text")
          (getField (getField (getField w nodeId) "inputs") "wildcard_text"))
        (.str ""), nodeId :: visited)
    else if classTypeIs (getField w nodeId) "PCLazyTextEncode" ∧
        truthy (getField (getField w nodeId) "inputs") ∧
        truthy (getField (getField (getField w nodeId) "inputs") "text") then
      if isArr (getField (getField (getField w nodeId) "inputs") "text") then
        extractTextFromNode w fuel
          (jToString (jIndex (getField (getField (getField w nodeId) "inputs") "text") 0))
          (nodeId :: visited)
      else some (getField (getField (getField w nodeId) "inputs") "text", nodeId :: visited)
    else if classTypeIs (getField w nodeId) "ChromaPaddingRemoval" ∧
        truthy (getField (getField w nodeId) "inputs") ∧
        truthy (getField (getField (getField w nodeId) "inputs") "conditioning") then
      if isArr (getField (getField (getField w nodeId) "inputs") "conditioning") then
        extractTextFromNode w fuel
          (jToString (jIndex (getField (getField (getField w nodeId) "inputs") "conditioning") 0))
          (nodeId :: visited)
      else some (.str "", nodeId :: visited)
    else if classTypeIs (getField w nodeId) "ImpactConcatConditionings" ∧
        truthy (getField (getField w nodeId) "inputs") then
      match concatLoop (fun id vis => extractTextFromNode w fuel id vis)
          (getField (getField w nodeId) "inputs")
          [1, 2, 3, 4, 5, 6, 7, 8, 9, 10] (nodeId :: visited) [] with
      | none => none
      | some r => some (.str (jsArrayJoin r.1 "\n\n"), r.2)
    else if classTypeIs (getField w nodeId) "CLIPTextEncode" ∧
        truthy (getField (getField w nodeId) "inputs") ∧
        truthy (getField (getField (getField w nodeId) "inputs") "text") then
      if isArr (getField (getField (getField w nodeId) "inputs") "text") then
        extractTextFromNode w fuel
          (jToString (jIndex (getField (getField (getField w nodeId) "inputs") "text") 0))
          (nodeId :: visited)
      else some (getField (getField (getField w nodeId) "inputs") "text", nodeId :: visited)
    else if classTypeIs (getField w nodeId) "CLIPTextEncodeFlux" ∧
        truthy (getField (getField w nodeId) "inputs") then
      if isArr (jor (getField (getField (getField w nodeId) "inputs") "clip_l")
          (jor (getField (getField (getField w nodeId) "inputs") "t5xxl") (.str ""))) then
        extractTextFromNode w fuel
          (jToString (jIndex (jor (getField (getField (getField w nodeId) "inputs") "clip_l")
            (jor (getField (getField (getField w nodeId) "inputs") "t5xxl") (.str ""))) 0))
          (nodeId :: visited)
      else
        some (jor (getField (getField (getField w nodeId) "inputs") "clip_l")
          (jor (getField (getField (getField w nodeId) "inputs") "t5xxl") (.str "")),
          nodeId :: visited)
    else if classTypeIs (getField w nodeId) "StringConcatenate" ∧
        truthy (getField (getField w nodeId) "inputs") then
      match (if truthy (getField (getField (getField w nodeId) "inputs") "string_a") then
          if isArr (getField (getField (getField w nodeId) "inputs") "string_a") then
            match extractTextFromNode w fuel
                (jToString (jIndex (getField (getField (getField w nodeId) "inputs") "string_a")
                  0)) (nodeId :: visited) with
            | none => none
            | some r => some ([r.1], r.2)
          else some ([getField (getField (getField w nodeId) "inputs") "string_a"],
            nodeId :: visited)
        else some (([] : List JVal), nodeId :: visited)) with
      | none => none
      | some s1 =>
        match (if truthy (getField (getField (getField w nodeId) "inputs") "string_b") then
            if isArr (getField (getField (getField w nodeId) "inputs") "string_b") then
              match extractTextFromNode w fuel
                  (jToString (jIndex (getField (getField (getField w nodeId) "inputs")
                    "string_b") 0)) s1.2 with
              | none => none
              | some r => some (s1.1 ++ [r.1], r.2)
            else some (s1.1 ++ [getField (getField (getField w nodeId) "inputs") "string_b"],
              s1.2)
          else some (s1.1, s1.2)) with
        | none => none
        | some s2 =>
          some (.str (jsArrayJoin s2.1
            (jToString (jor (getField (getField (getField w nodeId) "inputs") "delimiter")
              (.str "")))), s2.2)
    else if classTypeIs (getField w nodeId) "String Literal" ∧
        truthy (getField (getField w nodeId) "inputs") ∧
        ¬ isUndefined (getField (getField (getField w nodeId) "inputs") "string") then
      some (getField (getField (getField w nodeId) "inputs") "string", nodeId :: visited)
    else if classTypeIs (getField w nodeId) "TextEncodeQwenImageEdit" ∧
        truthy (getField (getField w nodeId) "inputs") ∧
        truthy (getField (getField (getField w nodeId) "inputs") "prompt") then
      if isArr (getField (getField (getField w nodeId) "inputs") "prompt") then
        extractTextFromNode w fuel
          (jToString (jIndex (getField (getField (getField w nodeId) "inputs") "prompt") 0))
          (nodeId :: visited)
      else some (getField (getField (getField w nodeId) "inputs") "prompt", nodeId :: visited)
    else some (.str "", nodeId :: visited)

/-- The fuel the model supplies for a top-level extraction: strictly more than
the number of distinct enumerable keys of the workflow. -/
def fuelFor (w : JVal) : Nat := ((jKeys w).dedup).length + 1

/-- A top-level `extractTextFromNode(nodeId)` call with a fresh visited set.
The `none` fallback is unreachable (see the fuel-sufficiency theorem). -/
def extractTextTop (w : JVal) (nodeId : String) : JVal :=
  match extractTextFromNode w (fuelFor w) nodeId [] with
  | some r => r.1
  | none => .str ""

/-- The two guarded extraction assignments after Step 3. -/
def stageC (w : JVal) (ids : Option String × Option String) (p : Prompts) : Prompts :=
  let p1 := if optTruthy ids.1 then { p with positive := extractTextTop w ((ids.1).getD "") }
    else p
  if optTruthy ids.2 then { p1 with negative := extractTextTop w ((ids.2).getD "") } else p1

/-- `node._meta?.title?.toLowerCase() || ""` of the final fallback: an absent
`_meta`/`title` yields `""`, a non-string title throws. -/
def stageDTitle (node : JVal) : Except Unit String :=
  match getField node "_meta" with
  | .undefined => .ok ""
  | .jnull => .ok ""
  | m =>
    match getField m "title" with
    | .undefined => .ok ""
    | .jnull => .ok ""
    | .str s => .ok (jsToLower s)
    | _ => .error ()

/-- One node of the title/type fallback scan. -/
def stageDNode (ids : Option String × Option String) (nodeId : String) (node : JVal)
    (p : Prompts) : Except Unit Prompts := do
  let ct ← getProp node "class_type"
  if jStrEq ct "CLIPTextEncode" then
    let inputs := getField node "inputs"
    if truthy inputs ∧ truthy (getField inputs "text") then do
      let title ← stageDTitle node
      if strIncludes title "negative" ∨ strIncludes title "nag" then
        if ¬ truthy p.negative then pure { p with negative := getField inputs "text" }
        else pure p
      else
        if ¬ truthy p.positive ∧ ids.1 ≠ some nodeId ∧ ids.2 ≠ some nodeId then
          pure { p with positive := getField inputs "text" }
        else pure p
    else pure p
  else if jStrEq ct "CLIPTextEncodeFlux" then
    let inputs := getField node "inputs"
    if truthy inputs then do
      let text := jor (getField inputs "clip_l") (jor (getField inputs "t5xxl") (.str ""))
      let title ← stageDTitle node
      if strIncludes title "negative" ∨ strIncludes title "nag" then
        if ¬ truthy p.negative then pure { p with negative := text } else pure p
      else
        if ¬ truthy p.positive ∧ ids.1 ≠ some nodeId ∧ ids.2 ≠ some nodeId then
          pure { p with positive := text }
        else pure p
    else pure p
  else pure p

/-- The title/type fallback loop.  An exception thrown at some node aborts the
scan; the error carries the prompts accumulated so far (the state the
enclosing `catch` hands back to the caller). -/
def stageDScan (ids : Option String × Option String) :
    List (String × JVal) → Prompts → Except Prompts Prompts
  | [], p => .ok p
  | q :: rest, p =>
    match stageDNode ids q.1 q.2 p with
    | .error _ => .error p
    | .ok p' => stageDScan ids rest p'

/-- The whole `try` block of `extractPromptsFromWorkflow`: Steps 1–3 select
node ids, the guarded extraction fills the prompts, and the fallback scan runs
when a side is still falsy.  `.error p` means an exception was thrown while
the prompts object held `p`. -/
def extractPromptsBody (w : JVal) : Except Prompts Prompts :=
  let p0 : Prompts := ⟨.str "", .str ""⟩
  let entries := jEntries w
  match stageACandidates entries with
  | .error _ => .error p0
  | .ok cands =>
    let ids0 := selectChannelIds (sortCandidates cands) none none
    match stageB w entries ids0 with
    | .error _ => .error p0
    | .ok ids =>
      let p := stageC w ids p0
      if ¬ truthy p.positive ∨ ¬ truthy p.negative then stageDScan ids entries p
      else .ok p

/-- `extractPromptsFromWorkflow(workflow)`: a falsy workflow returns the empty
prompts immediately; otherwise the `try` body runs and the `catch` converts a
thrown exception into returning the prompts accumulated so far. -/
def extractPromptsFromWorkflow (w : JVal) : Prompts :=
  let p0 : Prompts := ⟨.str "", .str ""⟩
  if ¬ truthy w then p0
  else
    match extractPromptsBody w with
    | .ok p => p
    | .error p => p

/-- The number of distinct enumerable workflow keys not yet visited: the
measure showing the traversal's cycle guard terminates. -/
def unvisitedKeyCount (w : JVal) (vis : List String) : Nat :=
  (((jKeys w).dedup).filter (fun k => decide (k ∉ vis))).length

/-! ## Theorems

Everything from here on is a theorem about the definitions above. -/

theorem getUint8_append (pre l : List Nat) (k : Nat) (h : k < l.length) :
    getUint8 (pre ++ l) (pre.length + k) = .ok (l[k]) := by
  unfold getUint8
  have h1 : pre.length + k < (pre ++ l).length := by
    simp only [List.length_append]; omega
  rw [dif_pos h1]
  congr 1
  rw [List.getElem_append_right (by omega)]
  congr 1
  omega

theorem getUint8_oob (bytes : List Nat) (i : Nat) (h : bytes.length ≤ i) :
    getUint8 bytes i = .error () := by
  unfold getUint8
  rw [dif_neg (by omega)]

theorem getUint8_lt (bytes : List Nat) (i : Nat) (h : i < bytes.length) :
    getUint8 bytes i = .ok bytes[i] := by
  unfold getUint8
  rw [dif_pos h]

theorem getUint32_append_u32be (pre : List Nat) (n : Nat) (rest : List Nat) (h : n < 2^32) :
    getUint32 (pre ++ (u32be n ++ rest)) pre.length = .ok n := by
  unfold getUint32
  have e0 := getUint8_append pre (u32be n ++ rest) 0 (by simp [u32be])
  have e1 := getUint8_append pre (u32be n ++ rest) 1 (by simp [u32be])
  have e2 := getUint8_append pre (u32be n ++ rest) 2 (by simp [u32be])
  have e3 := getUint8_append pre (u32be n ++ rest) 3 (by simp [u32be])
  simp only [Nat.add_zero] at e0
  rw [e0, e1, e2, e3]
  simp only [u32be, List.cons_append, List.getElem_cons_zero, List.getElem_cons_succ]
  congr 1
  omega

theorem checkSignatureFrom_append (rest : List Nat) (i : Nat) :
    checkSignatureFrom (pngSignature ++ rest) i = .ok true := by
  rw [checkSignatureFrom]
  split
  case isTrue h =>
    have hl : i < (pngSignature ++ rest).length := by
      simp only [List.length_append]
      have : pngSignature.length = 8 := by simp [pngSignature]
      omega
    rw [getUint8_lt _ _ hl]
    have hsl : i < pngSignature.length := by simp [pngSignature]; omega
    have hget : (pngSignature ++ rest)[i] = pngSignature[i] := List.getElem_append_left hsl
    have hgd : pngSignature.getD i 0 = pngSignature[i] := List.getD_eq_getElem _ 0 hsl
    dsimp only
    rw [hget, hgd, if_pos rfl]
    exact checkSignatureFrom_append rest (i+1)
  case isFalse h => rfl
termination_by 8 - i

theorem checkSignatureFrom_take (bytes : List Nat) (h : bytes.take 8 = pngSignature) :
    checkSignatureFrom bytes 0 = .ok true := by
  have hb : bytes = pngSignature ++ bytes.drop 8 := by
    conv_lhs => rw [← List.take_append_drop 8 bytes]
    rw [h]
  rw [hb]
  exact checkSignatureFrom_append _ 0

theorem checkSignatureFrom_mismatch (bytes : List Nat) (h8 : 8 ≤ bytes.length) (i : Nat)
    (hi : i ≤ 8) (hne : (bytes.take 8).drop i ≠ pngSignature.drop i) :
    checkSignatureFrom bytes i = .ok false := by
  have hslen : pngSignature.length = 8 := by simp [pngSignature]
  rcases Nat.lt_or_ge i 8 with hlt | hge
  · have h1t : i < (bytes.take 8).length := by simp only [List.length_take]; omega
    have h1s : i < pngSignature.length := by omega
    have h1b : i < bytes.length := by omega
    rw [checkSignatureFrom]
    rw [if_pos hlt]
    rw [getUint8_lt _ _ h1b]
    dsimp only
    have hgd : pngSignature.getD i 0 = pngSignature[i] := List.getD_eq_getElem _ 0 h1s
    have hdt : (bytes.take 8).drop i = (bytes.take 8)[i] :: (bytes.take 8).drop (i+1) :=
      List.drop_eq_getElem_cons h1t
    have hds : pngSignature.drop i = pngSignature[i] :: pngSignature.drop (i+1) :=
      List.drop_eq_getElem_cons h1s
    have hbt : (bytes.take 8)[i] = bytes[i] := List.getElem_take _
    rw [hgd]
    by_cases heq : bytes[i] = pngSignature[i]
    · rw [if_pos heq]
      apply checkSignatureFrom_mismatch bytes h8 (i+1) (by omega)
      intro hc
      apply hne
      rw [hdt, hds, hbt, heq, hc]
    · rw [if_neg heq]
  · exfalso
    apply hne
    have : i = 8 := by omega
    subst this
    rw [List.drop_eq_nil_of_le (by simp only [List.length_take]; omega),
      List.drop_eq_nil_of_le (by omega)]
termination_by 8 - i

theorem checkSignatureFrom_short_err (bytes : List Nat) (hlen : bytes.length < 8) (i : Nat)
    (hi : i ≤ bytes.length)
    (hmatch : bytes.drop i = (pngSignature.take bytes.length).drop i) :
    checkSignatureFrom bytes i = .error () := by
  have hslen : pngSignature.length = 8 := by simp [pngSignature]
  rcases Nat.lt_or_ge i bytes.length with hlt | hge
  · have h1b : i < bytes.length := hlt
    have h1s : i < pngSignature.length := by omega
    have h1t : i < (pngSignature.take bytes.length).length := by
      simp only [List.length_take]
      omega
    rw [checkSignatureFrom]
    rw [if_pos (by omega)]
    rw [getUint8_lt _ _ hlt]
    dsimp only
    have hgd : pngSignature.getD i 0 = pngSignature[i] := List.getD_eq_getElem _ 0 h1s
    have hdb : bytes.drop i = bytes[i] :: bytes.drop (i+1) :=
      List.drop_eq_getElem_cons h1b
    have hds : (pngSignature.take bytes.length).drop i =
        (pngSignature.take bytes.length)[i] :: (pngSignature.take bytes.length).drop (i+1) :=
      List.drop_eq_getElem_cons h1t
    have hst : (pngSignature.take bytes.length)[i] = pngSignature[i] := List.getElem_take _
    rw [hdb, hds, hst] at hmatch
    have hhead : bytes[i] = pngSignature[i] := (List.cons_eq_cons.mp hmatch).1
    rw [hgd, if_pos hhead]
    apply checkSignatureFrom_short_err bytes hlen (i+1) (by omega)
    exact (List.cons_eq_cons.mp hmatch).2
  · have : i = bytes.length := by omega
    subst this
    rw [checkSignatureFrom]
    rw [if_pos (by omega)]
    rw [getUint8_oob _ _ (by omega)]
termination_by bytes.length - i

theorem checkSignatureFrom_short_mismatch (bytes : List Nat) (hlen : bytes.length < 8) (i : Nat)
    (hi : i ≤ bytes.length)
    (hne : bytes.drop i ≠ (pngSignature.take bytes.length).drop i) :
    checkSignatureFrom bytes i = .ok false := by
  have hslen : pngSignature.length = 8 := by simp [pngSignature]
  rcases Nat.lt_or_ge i bytes.length with hlt | hge
  · have h1b : i < bytes.length := hlt
    have h1s : i < pngSignature.length := by omega
    have h1t : i < (pngSignature.take bytes.length).length := by
      simp only [List.length_take]
      omega
    rw [checkSignatureFrom]
    rw [if_pos (by omega)]
    rw [getUint8_lt _ _ hlt]
    dsimp only
    have hgd : pngSignature.getD i 0 = pngSignature[i] := List.getD_eq_getElem _ 0 h1s
    have hdb : bytes.drop i = bytes[i] :: bytes.drop (i+1) :=
      List.drop_eq_getElem_cons h1b
    have hds : (pngSignature.take bytes.length).drop i =
        (pngSignature.take bytes.length)[i] :: (pngSignature.take bytes.length).drop (i+1) :=
      List.drop_eq_getElem_cons h1t
    have hst : (pngSignature.take bytes.length)[i] = pngSignature[i] := List.getElem_take _
    rw [hgd]
    by_cases heq : bytes[i] = pngSignature[i]
    · rw [if_pos heq]
      apply checkSignatureFrom_short_mismatch bytes hlen (i+1) (by omega)
      intro hc
      apply hne
      rw [hdb, hds, hst, heq, hc]
    · rw [if_neg heq]
  · exfalso
    apply hne
    have : i = bytes.length := by omega
    subst this
    rw [List.drop_eq_nil_of_le (by omega),
      List.drop_eq_nil_of_le (by simp only [List.length_take]; omega)]
termination_by bytes.length - i

/-- **C4** (counterexample to the frozen claim): the empty buffer is shorter
than 8 bytes, yet `read` does not return null — the very first signature read
is out of range and throws. -/
theorem C4_counterexample :
    parsePNGMetadata [] = .error () ∧ parsePNGMetadata [] ≠ .ok none := by
  have h : checkSignatureFrom [] 0 = .error () := by
    apply checkSignatureFrom_short_err <;> simp
  refine ⟨?_, ?_⟩
  · simp only [parsePNGMetadata, h]
  · simp only [parsePNGMetadata, h]
    intro hc
    exact Except.noConfusion hc

/-- **C4** (amended): a buffer of length ≥ 8 whose first 8 bytes differ from
the fixed signature makes `read` return null; a buffer shorter than 8 bytes
makes `read` throw when its bytes are a proper prefix of the signature, and
return null otherwise (the byte-by-byte check hits a mismatch before running
out of range). -/
theorem C4_read_signature (bytes : List Nat) :
    (8 ≤ bytes.length → bytes.take 8 ≠ pngSignature → parsePNGMetadata bytes = .ok none) ∧
    (bytes.length < 8 → bytes = pngSignature.take bytes.length →
      parsePNGMetadata bytes = .error ()) ∧
    (bytes.length < 8 → bytes ≠ pngSignature.take bytes.length →
      parsePNGMetadata bytes = .ok none) := by
  refine ⟨fun h8 hne => ?_, fun hl hm => ?_, fun hl hne => ?_⟩
  · have h : checkSignatureFrom bytes 0 = .ok false :=
      checkSignatureFrom_mismatch bytes h8 0 (by omega) (by simpa using hne)
    simp only [parsePNGMetadata, h]
  · have h : checkSignatureFrom bytes 0 = .error () := by
      apply checkSignatureFrom_short_err bytes hl 0 (by omega)
      simpa using congrArg (List.drop 0) hm
    simp only [parsePNGMetadata, h]
  · have h : checkSignatureFrom bytes 0 = .ok false := by
      apply checkSignatureFrom_short_mismatch bytes hl 0 (by omega)
      simpa using hne
    simp only [parsePNGMetadata, h]

/-- Witness for C4 at concrete buffers: an 8-byte zero buffer and the 1-byte
buffer `[0]` yield null, while the 1-byte signature prefix `[0x89]` throws. -/
theorem C4_read_signature_witness :
    parsePNGMetadata [0, 0, 0, 0, 0, 0, 0, 0] = .ok none ∧
    parsePNGMetadata [0x89] = .error () ∧
    parsePNGMetadata [0] = .ok none :=
  ⟨(C4_read_signature _).1 (by simp) (by decide),
   (C4_read_signature _).2.1 (by simp) (by decide),
   (C4_read_signature _).2.2 (by simp) (by decide)⟩

/-- **C3** (counterexample to the frozen claim): a valid signature followed by
a single stray byte is truncated mid-chunk-header, and `read` throws (the
`RangeError` escapes to the caller) instead of returning null. -/
theorem C3_counterexample :
    parsePNGMetadata (pngSignature ++ [0]) = .error () ∧
    parsePNGMetadata (pngSignature ++ [0]) ≠ .ok none := by
  have hsig : checkSignatureFrom (pngSignature ++ [0]) 0 = .ok true :=
    checkSignatureFrom_append [0] 0
  have hlen : (pngSignature ++ [0]).length = 9 := by simp [pngSignature]
  have hu32 : getUint32 (pngSignature ++ [0]) 8 = .error () := by
    rw [getUint32, getUint8_lt _ 8 (by omega), getUint8_oob _ 9 (by omega)]
  have hchunks : parseChunks (pngSignature ++ [0]) 8 [] = .error () := by
    rw [parseChunks]
    rw [dif_pos (by omega)]
    rw [hu32]
  refine ⟨?_, ?_⟩
  · simp only [parsePNGMetadata, hsig, hchunks]
    rfl
  · simp only [parsePNGMetadata, hsig, hchunks]
    intro hc
    exact Except.noConfusion hc

theorem chunkBytes_length (c : PNGChunk) (hwf : chunkWF c) :
    (chunkBytes c).length = 12 + c.data.length := by
  obtain ⟨h1, _, h3, _⟩ := hwf
  simp [chunkBytes, u32be, h1, h3]
  omega

theorem parseChunks_step (pre : List Nat) (c : PNGChunk) (rest : List Nat)
    (acc : List (String × String)) (hwf : chunkWF c) :
    parseChunks (pre ++ chunkBytes c ++ rest) pre.length acc =
      (let acc' := match chunkEntryKV c with
        | some kv => acc ++ [kv]
        | none => acc
      if chunkTypeName c = "IEND" then .ok acc'
      else parseChunks (pre ++ chunkBytes c ++ rest) (pre.length + (chunkBytes c).length) acc') := by
  obtain ⟨hlen4, hblt, hclen, hdlen⟩ := hwf
  obtain ⟨t0, t1, t2, t3, htb⟩ : ∃ t0 t1 t2 t3, c.typeB = [t0, t1, t2, t3] := by
    rcases hb : c.typeB with _ | ⟨a0, _ | ⟨a1, _ | ⟨a2, _ | ⟨a3, tl⟩⟩⟩⟩ <;>
      simp_all
  have hclen' : (chunkBytes c).length = 12 + c.data.length := by
    simp [chunkBytes, u32be, htb, hclen]
    omega
  have htotal : (pre ++ chunkBytes c ++ rest).length =
      pre.length + 12 + c.data.length + rest.length := by
    simp only [List.length_append, hclen']
    omega
  have harr1 : pre ++ chunkBytes c ++ rest =
      pre ++ (u32be c.data.length ++ (c.typeB ++ (c.data ++ (c.crc ++ rest)))) := by
    simp [chunkBytes, List.append_assoc]
  have hu32 : getUint32 (pre ++ chunkBytes c ++ rest) pre.length = .ok c.data.length := by
    rw [harr1]
    exact getUint32_append_u32be pre c.data.length _ hdlen
  have hprelen2 : (pre ++ u32be c.data.length).length = pre.length + 4 := by
    simp [u32be]
  have harr2 : pre ++ chunkBytes c ++ rest =
      (pre ++ u32be c.data.length) ++ (t0 :: t1 :: t2 :: t3 :: (c.data ++ (c.crc ++ rest))) := by
    simp [chunkBytes, htb, List.append_assoc]
  have ht0 : getUint8 (pre ++ chunkBytes c ++ rest) (pre.length + 4) = .ok t0 := by
    rw [harr2]
    have h := getUint8_append (pre ++ u32be c.data.length)
      (t0 :: t1 :: t2 :: t3 :: (c.data ++ (c.crc ++ rest))) 0 (by simp)
    rw [hprelen2] at h
    simpa using h
  have ht1 : getUint8 (pre ++ chunkBytes c ++ rest) (pre.length + 4 + 1) = .ok t1 := by
    rw [harr2]
    have h := getUint8_append (pre ++ u32be c.data.length)
      (t0 :: t1 :: t2 :: t3 :: (c.data ++ (c.crc ++ rest))) 1 (by simp)
    rw [hprelen2] at h
    simpa using h
  have ht2 : getUint8 (pre ++ chunkBytes c ++ rest) (pre.length + 4 + 2) = .ok t2 := by
    rw [harr2]
    have h := getUint8_append (pre ++ u32be c.data.length)
      (t0 :: t1 :: t2 :: t3 :: (c.data ++ (c.crc ++ rest))) 2 (by simp)
    rw [hprelen2] at h
    simpa using h
  have ht3 : getUint8 (pre ++ chunkBytes c ++ rest) (pre.length + 4 + 3) = .ok t3 := by
    rw [harr2]
    have h := getUint8_append (pre ++ u32be c.data.length)
      (t0 :: t1 :: t2 :: t3 :: (c.data ++ (c.crc ++ rest))) 3 (by simp)
    rw [hprelen2] at h
    simpa using h
  have hprelen3 : (pre ++ u32be c.data.length ++ c.typeB).length = pre.length + 8 := by
    simp [u32be, htb]
  have harr3 : pre ++ chunkBytes c ++ rest =
      (pre ++ u32be c.data.length ++ c.typeB) ++ (c.data ++ (c.crc ++ rest)) := by
    simp [chunkBytes, List.append_assoc]
  have hslice : ((pre ++ chunkBytes c ++ rest).drop (pre.length + 8)).take c.data.length
      = c.data := by
    rw [harr3, ← hprelen3, List.drop_left, List.take_left]
  have htname : chunkTypeName c =
      String.mk [Char.ofNat t0, Char.ofNat t1, Char.ofNat t2, Char.ofNat t3] := by
    simp [chunkTypeName, htb]
  have hoff : pre.length + 8 + c.data.length + 4 = pre.length + (chunkBytes c).length := by
    rw [hclen']
    omega
  rw [parseChunks]
  rw [dif_pos (by omega)]
  rw [hu32, ht0, ht1, ht2, ht3]
  dsimp only
  simp only [chunkEntryKV]
  rw [htname]
  by_cases htext : String.mk [Char.ofNat t0, Char.ofNat t1, Char.ofNat t2, Char.ofNat t3] = "tEXt"
      ∨ String.mk [Char.ofNat t0, Char.ofNat t1, Char.ofNat t2, Char.ofNat t3] = "iTXt"
  · rw [if_pos htext, if_pos htext, if_pos (by omega)]
    rw [hslice]
    cases hsp : splitNul (utf8Decode c.data) with
    | none =>
      dsimp only
      rw [hoff]
    | some kv =>
      dsimp only
      rw [hoff]
  · rw [if_neg htext, if_neg htext]
    dsimp only
    rw [hoff]

theorem parseChunks_chunksBytes (cs : List PNGChunk) (pre : List Nat)
    (acc : List (String × String)) (hwf : ∀ c ∈ cs, chunkWF c) :
    parseChunks (pre ++ chunksBytes cs) pre.length acc = .ok (processChunks cs acc) := by
  induction cs generalizing pre acc with
  | nil =>
    simp only [chunksBytes, List.map_nil, List.flatten_nil, List.append_nil]
    rw [parseChunks]
    rw [dif_neg (by omega)]
    rfl
  | cons c cs ih =>
    have hwfc := hwf c (by simp)
    have harr : pre ++ chunksBytes (c :: cs) = pre ++ chunkBytes c ++ chunksBytes cs := by
      simp [chunksBytes, List.append_assoc]
    rw [harr]
    rw [parseChunks_step pre c (chunksBytes cs) acc hwfc]
    dsimp only
    rw [processChunks]
    by_cases hiend : chunkTypeName c = "IEND"
    · rw [if_pos hiend, if_pos hiend]
    · rw [if_neg hiend, if_neg hiend]
      have harr2 : pre ++ chunkBytes c ++ chunksBytes cs =
          (pre ++ chunkBytes c) ++ chunksBytes cs := by
        simp [List.append_assoc]
      have hlen : pre.length + (chunkBytes c).length = (pre ++ chunkBytes c).length := by
        simp
      rw [harr2, hlen]
      exact ih (pre ++ chunkBytes c) _ (fun d hd => hwf d (by simp [hd]))

theorem processChunks_eq (cs : List PNGChunk) (acc : List (String × String)) :
    processChunks cs acc = acc ++ (chunksUpToIEND cs).filterMap chunkEntryKV := by
  induction cs generalizing acc with
  | nil => simp [processChunks, chunksUpToIEND]
  | cons c cs ih =>
    rw [processChunks, chunksUpToIEND]
    by_cases hiend : chunkTypeName c = "IEND"
    · rw [if_pos hiend, if_pos hiend]
      cases hkv : chunkEntryKV c <;> simp [hkv]
    · rw [if_neg hiend, if_neg hiend]
      rw [ih]
      cases hkv : chunkEntryKV c <;> simp [hkv]

/-- **C2**: reading a well-formed container (valid signature, chunks with
in-range lengths) returns a mapping, and looking up any keyword in it gives
exactly the value of the last `tEXt`/`iTXt` chunk before (or at) the first
`IEND` that carries that keyword — absent keywords are absent, and the later
of two duplicate keywords wins. -/
theorem C2_read_wellformed (cs : List PNGChunk) (hwf : ∀ c ∈ cs, chunkWF c) :
    ∃ m, parsePNGMetadata (pngSignature ++ chunksBytes cs) = .ok (some m) ∧
      ∀ k, lookupLast m k = lastKeywordValue cs k := by
  refine ⟨(chunksUpToIEND cs).filterMap chunkEntryKV, ?_, fun k => rfl⟩
  have hsig := checkSignatureFrom_append (chunksBytes cs) 0
  simp only [parsePNGMetadata, hsig]
  have hp := parseChunks_chunksBytes cs pngSignature [] hwf
  have h8 : pngSignature.length = 8 := by simp [pngSignature]
  rw [h8] at hp
  rw [hp, processChunks_eq]
  simp [Except.map]

/-- Witness for C2: a container with two duplicate `prompt` text chunks, an
`iTXt` chunk, an `IEND`, and a trailing text chunk the scan must ignore. -/
theorem C2_read_wellformed_witness :
    ∃ m, parsePNGMetadata (pngSignature ++ chunksBytes
      [⟨[0x74, 0x45, 0x58, 0x74], [112, 114, 111, 109, 112, 116, 0, 88], [0, 0, 0, 0]⟩,
       ⟨[0x74, 0x45, 0x58, 0x74], [112, 114, 111, 109, 112, 116, 0, 89], [0, 0, 0, 0]⟩,
       ⟨[0x69, 0x54, 0x58, 0x74], [111, 116, 104, 101, 114, 0, 90], [0, 0, 0, 0]⟩,
       ⟨[0x49, 0x45, 0x4E, 0x44], [], [0, 0, 0, 0]⟩,
       ⟨[0x74, 0x45, 0x58, 0x74], [97, 0, 98], [0, 0, 0, 0]⟩]) = .ok (some m) ∧
      ∀ k, lookupLast m k = lastKeywordValue
      [⟨[0x74, 0x45, 0x58, 0x74], [112, 114, 111, 109, 112, 116, 0, 88], [0, 0, 0, 0]⟩,
       ⟨[0x74, 0x45, 0x58, 0x74], [112, 114, 111, 109, 112, 116, 0, 89], [0, 0, 0, 0]⟩,
       ⟨[0x69, 0x54, 0x58, 0x74], [111, 116, 104, 101, 114, 0, 90], [0, 0, 0, 0]⟩,
       ⟨[0x49, 0x45, 0x4E, 0x44], [], [0, 0, 0, 0]⟩,
       ⟨[0x74, 0x45, 0x58, 0x74], [97, 0, 98], [0, 0, 0, 0]⟩] k :=
  C2_read_wellformed _ (by decide)

/-- **C10**: a `tEXt`/`iTXt` chunk whose decoded payload contains no NUL byte
contributes nothing to the metadata: the scan continues past it with the
accumulated insertions unchanged. -/
theorem C10_no_nul_chunk_skipped (pre : List Nat) (c : PNGChunk) (rest : List Nat)
    (acc : List (String × String)) (hwf : chunkWF c)
    (htext : chunkTypeName c = "tEXt" ∨ chunkTypeName c = "iTXt")
    (hnonul : nulChar ∉ utf8Decode c.data) :
    parseChunks (pre ++ chunkBytes c ++ rest) pre.length acc =
      parseChunks (pre ++ chunkBytes c ++ rest) (pre.length + (chunkBytes c).length) acc := by
  have hsp : splitNul (utf8Decode c.data) = none := by
    unfold splitNul
    have : (utf8Decode c.data).findIdx? (fun ch => ch = nulChar) = none := by
      rw [List.findIdx?_eq_none_iff]
      intro x hx
      simp only [decide_eq_false_iff_not]
      intro hc
      exact hnonul (hc ▸ hx)
    rw [this]
  have hkv : chunkEntryKV c = none := by
    unfold chunkEntryKV
    rw [if_pos htext, hsp]
  have hiend : ¬ chunkTypeName c = "IEND" := by
    rcases htext with h | h <;> rw [h] <;> decide
  rw [parseChunks_step pre c rest acc hwf]
  dsimp only
  rw [hkv]
  dsimp only
  rw [if_neg hiend]

/-- Witness for C10: a `tEXt` chunk with payload `"ab"` (no NUL) after the
signature is skipped with the metadata unchanged. -/
theorem C10_no_nul_chunk_skipped_witness :
    parseChunks (pngSignature ++ chunkBytes ⟨[0x74, 0x45, 0x58, 0x74], [97, 98], [0, 0, 0, 0]⟩
        ++ []) pngSignature.length [] =
      parseChunks (pngSignature ++ chunkBytes ⟨[0x74, 0x45, 0x58, 0x74], [97, 98], [0, 0, 0, 0]⟩
        ++ []) (pngSignature.length +
          (chunkBytes ⟨[0x74, 0x45, 0x58, 0x74], [97, 98], [0, 0, 0, 0]⟩).length) [] :=
  C10_no_nul_chunk_skipped _ _ _ _ (by decide) (by left; decide) (by decide)

theorem jEntries_falsy (w : JVal) (h : truthy w = false) : jEntries w = [] := by
  cases w with
  | str s =>
    simp only [truthy, decide_eq_false_iff_not, not_not] at h
    subst h
    rfl
  | obj fs => simp [truthy] at h
  | arr xs => simp [truthy] at h
  | undefined => rfl
  | jnull => rfl
  | bool b => rfl
  | num n => rfl

/-- **C5**: `resolve(null)` is `{positive: "", negative: ""}`, and whenever the
resolver body throws internally (carrying the prompts accumulated so far), the
caller still receives those prompts rather than an exception. -/
theorem C5_resolve_null_and_catches :
    extractPromptsFromWorkflow .jnull = ⟨.str "", .str ""⟩ ∧
    ∀ (w : JVal) (p : Prompts), extractPromptsBody w = .error p →
      extractPromptsFromWorkflow w = p := by
  refine ⟨rfl, fun w p h => ?_⟩
  by_cases ht : truthy w
  · simp [extractPromptsFromWorkflow, ht, h]
  · exfalso
    have hb : extractPromptsBody w = .ok ⟨.str "", .str ""⟩ := by
      simp only [extractPromptsBody,
        jEntries_falsy w (by simpa using ht)]
      rfl
    rw [hb] at h
    exact Except.noConfusion h

/-- Witness for C5: a graph containing a `null` node makes the Step 1 scan
throw a `TypeError` accessing `node.inputs`; the catch hands back the empty
prompts. -/
theorem C5_resolve_null_and_catches_witness :
    extractPromptsFromWorkflow (.obj [("x", .jnull)]) = ⟨.str "", .str ""⟩ :=
  C5_resolve_null_and_catches.2 (.obj [("x", .jnull)]) ⟨.str "", .str ""⟩ rfl

theorem jor_jor_str (a b : JVal) :
    jor (jor a b) (.str "") =
      if truthy a then a else if truthy b then b else .str "" := by
  by_cases ha : truthy a
  · simp [jor, ha]
  · by_cases hb : truthy b <;> simp [jor, ha, hb]

/-- **C8** (counterexample to the frozen claim): a wildcard-processor node
whose `populated_text` is present but empty resolves to `wildcard_text`, not
to the (present) `populated_text` value. -/
theorem C8_counterexample :
    extractTextFromNode (.obj [("n", .obj [("class_type", .str "ImpactWildcardProcessor"),
        ("inputs", .obj [("populated_text", .str ""), ("wildcard_text", .str "w")])])])
      2 "n" [] = some (.str "w", ["n"]) ∧
    getField (getField (getField (.obj [("n", .obj
        [("class_type", .str "ImpactWildcardProcessor"),
         ("inputs", .obj [("populated_text", .str ""), ("wildcard_text", .str "w")])])]) "n")
      "inputs") "populated_text" = .str "" ∧
    JVal.str "w" ≠ JVal.str "" := by
  refine ⟨rfl, rfl, ?_⟩
  simp

/-- **C8** (amended): Stage C resolution of a wildcard-processor node returns
`populated_text` when that field is truthy (present and non-empty), else
`wildcard_text` when truthy, else the empty string. -/
theorem C8_wildcard_resolution (w : JVal) (fuel : Nat) (nodeId : String) (visited : List String)
    (hid : nodeId ≠ "") (hvis : nodeId ∉ visited)
    (hnode : truthy (getField w nodeId) = true)
    (hct : classTypeIs (getField w nodeId) "ImpactWildcardProcessor" = true)
    (hin : truthy (getField (getField w nodeId) "inputs") = true) :
    extractTextFromNode w (fuel + 1) nodeId visited =
      some ((if truthy (getField (getField (getField w nodeId) "inputs") "populated_text") then
          getField (getField (getField w nodeId) "inputs") "populated_text"
        else if truthy (getField (getField (getField w nodeId) "inputs") "wildcard_text") then
          getField (getField (getField w nodeId) "inputs") "wildcard_text"
        else .str ""), nodeId :: visited) := by
  rw [extractTextFromNode]
  rw [if_neg (not_or.mpr ⟨hid, hvis⟩)]
  simp only [hnode, Bool.not_true, not_true, not_false_eq_true, if_false, ite_false, if_true,
    ite_true]
  rw [if_pos ⟨hct, hin⟩, jor_jor_str]

/-- Witness for C8: a wildcard node with non-empty `populated_text` resolves
to it. -/
theorem C8_wildcard_resolution_witness :
    extractTextFromNode (.obj [("n", .obj [("class_type", .str "ImpactWildcardProcessor"),
        ("inputs", .obj [("populated_text", .str "X"), ("wildcard_text", .str "w")])])])
      (1 + 1) "n" [] = some (.str "X", ["n"]) := by
  have h := C8_wildcard_resolution (.obj [("n", .obj
      [("class_type", .str "ImpactWildcardProcessor"),
       ("inputs", .obj [("populated_text", .str "X"), ("wildcard_text", .str "w")])])])
    1 "n" [] (by decide) (by simp) rfl rfl rfl
  simpa using h

theorem bind_ok_eq {ε α β : Type} (a : α) (f : α → Except ε β) :
    (Except.ok a >>= f) = f a := rfl

theorem getField_obj (fs : List (String × JVal)) (k : String) :
    getField (.obj fs) k = ((fs.find? (fun p => p.1 = k)).map (fun p => p.2)).getD .undefined :=
  rfl

theorem getField_obj_cases (fs : List (String × JVal)) (k : String) :
    getField (.obj fs) k = .undefined ∨ ∃ q ∈ fs, getField (.obj fs) k = q.2 := by
  rcases hf : fs.find? (fun p => p.1 = k) with _ | q
  · left
    rw [getField_obj, hf]
    rfl
  · right
    exact ⟨q, List.mem_of_find?_eq_some hf, by rw [getField_obj, hf]; rfl⟩

theorem patternEdge_no_arr (fs : List (String × JVal)) (pat : String)
    (h : ∀ q ∈ fs, isArr q.2 = false) : patternEdge (.obj fs) pat = false := by
  unfold patternEdge
  rcases getField_obj_cases fs pat with hc | ⟨q, hq, hc⟩
  · rw [hc]
    rfl
  · rw [hc, h q hq, Bool.and_false]

theorem stageBInput_no_arr (w node : JVal) (ids : Option String × Option String)
    (q : String × JVal) (h : isArr q.2 = false) : stageBInput w node ids q = .ok ids := by
  rcases q with ⟨key, v⟩
  cases v <;> first
    | rfl
    | (exfalso; simp [isArr] at h)

theorem foldlM_stageBInput_no_arr (w node : JVal) (l : List (String × JVal))
    (h : ∀ q ∈ l, isArr q.2 = false) :
    ∀ ids, l.foldlM (stageBInput w node) ids = .ok ids := by
  induction l with
  | nil => intro ids; rfl
  | cons q rest ih =>
    intro ids
    rw [List.foldlM_cons, stageBInput_no_arr w node ids q (h q (by simp))]
    have := ih (fun r hr => h r (by simp [hr]))
    simpa using this ids

theorem extractTextTop_clip_literal (w : JVal) (nodeId : String) (node inputs : JVal)
    (t : String) (hid : nodeId ≠ "")
    (hn : getField w nodeId = node)
    (htr : truthy node = true)
    (hct : getField node "class_type" = .str "CLIPTextEncode")
    (hin : getField node "inputs" = inputs)
    (hintr : truthy inputs = true)
    (htext : getField inputs "text" = .str t)
    (htne : t ≠ "") :
    extractTextTop w nodeId = .str t := by
  unfold extractTextTop
  obtain ⟨n, hfn⟩ : ∃ n, fuelFor w = n + 1 := ⟨_, rfl⟩
  rw [hfn]
  rw [extractTextFromNode]
  rw [if_neg (by simp [hid])]
  have htt : truthy (JVal.str t) = true := by simp [truthy, htne]
  simp only [hn, htr, Bool.not_true, not_true, not_false_eq_true, if_false, ite_false]
  simp only [hct, classTypeIs, jStrEq, hin, hintr, htext, htt, isArr]
  simp

/-- **C7** (counterexample to the frozen claim): a graph whose single node is
a CLIPTextEncode with literal `inputs.text = "hello"` and no title, but whose
inputs also carry a `negative` self-edge, resolves to
`{positive: "", negative: "hello"}` rather than `{positive: "hello",
negative: ""}`. -/
theorem C7_counterexample :
    extractPromptsFromWorkflow (.obj [("A", .obj [("class_type", .str "CLIPTextEncode"),
        ("inputs", .obj [("text", .str "hello"),
                         ("negative", .arr [.str "A", .num 0])])])]) =
      ⟨.str "", .str "hello"⟩ ∧
    (Prompts.mk (.str "") (.str "hello") ≠ Prompts.mk (.str "hello") (.str "")) := by
  refine ⟨rfl, ?_⟩
  intro h
  rw [Prompts.mk.injEq] at h
  simp at h

/-- **C7** (amended): a graph consisting of exactly one CLIPTextEncode node
with literal `inputs.text = "hello"`, none of whose input values is an array
(no producer edges), and whose title is absent or lacks "negative"/"nag",
resolves to `positive = "hello"`, `negative = ""` via the Step 4 fallback. -/
theorem C7_single_clip_node (k : String) (nfs ifs : List (String × JVal)) (title : String)
    (hct : getField (.obj nfs) "class_type" = .str "CLIPTextEncode")
    (hin : getField (.obj nfs) "inputs" = .obj ifs)
    (htext : getField (.obj ifs) "text" = .str "hello")
    (hnoarr : ∀ q ∈ ifs, isArr q.2 = false)
    (htitle : stageDTitle (.obj nfs) = .ok title)
    (hneg : strIncludes title "negative" = false)
    (hnag : strIncludes title "nag" = false) :
    extractPromptsFromWorkflow (.obj [(k, .obj nfs)]) = ⟨.str "hello", .str ""⟩ := by
  have hprop : getProp (.obj nfs) "inputs" = .ok (.obj ifs) := by
    rw [show getProp (.obj nfs) "inputs" = .ok (getField (.obj nfs) "inputs") from rfl, hin]
  have hctp : getProp (.obj nfs) "class_type" = .ok (.str "CLIPTextEncode") := by
    rw [show getProp (.obj nfs) "class_type" = .ok (getField (.obj nfs) "class_type") from rfl,
      hct]
  have hpat : ∀ pat, patternEdge (.obj ifs) pat = false :=
    fun pat => patternEdge_no_arr ifs pat hnoarr
  have hA : stageACandidates [(k, .obj nfs)] = .ok [] := by
    have hstep : stageAStep [] (k, .obj nfs) = .ok [] := by
      rw [stageAStep, hprop, bind_ok_eq]
      simp only [hpat, INPUT_PATTERNS_positive, INPUT_PATTERNS_negative]
      simp [truthy]
      rfl
    rw [stageACandidates, List.foldlM_cons, hstep, bind_ok_eq, List.foldlM_nil]
    rfl
  have hB : stageBScan (.obj [(k, .obj nfs)]) [(k, .obj nfs)] (none, none) =
      .ok (none, none) := by
    rw [stageBScan, List.foldlM_cons]
    have hstep : (do
        let inputs ← getProp (.obj nfs) "inputs"
        if truthy inputs then
          (jEntries inputs).foldlM (stageBInput (.obj [(k, .obj nfs)]) (.obj nfs))
            ((none : Option String), (none : Option String))
        else
          pure ((none : Option String), (none : Option String))) = .ok (none, none) := by
      rw [hprop, bind_ok_eq]
      rw [if_pos (by simp [truthy])]
      rw [show jEntries (.obj ifs) = ifs from rfl]
      exact foldlM_stageBInput_no_arr _ _ ifs hnoarr (none, none)
    rw [hstep, bind_ok_eq, List.foldlM_nil]
    rfl
  have hD : stageDNode (none, none) k (.obj nfs) ⟨.str "", .str ""⟩ =
      .ok ⟨.str "hello", .str ""⟩ := by
    rw [stageDNode, hctp, bind_ok_eq]
    rw [if_pos (by simp [jStrEq])]
    rw [hin]
    rw [if_pos (by simp [truthy, htext])]
    rw [htitle, bind_ok_eq]
    rw [if_neg (by simp [hneg, hnag])]
    rw [if_pos (by simp [truthy])]
    rw [htext]
    rfl
  have hscan : stageDScan (none, none) [(k, .obj nfs)] ⟨.str "", .str ""⟩ =
      .ok ⟨.str "hello", .str ""⟩ := by
    rw [stageDScan, hD]
    dsimp only
    rw [stageDScan]
  have hbody : extractPromptsBody (.obj [(k, .obj nfs)]) = .ok ⟨.str "hello", .str ""⟩ := by
    rw [extractPromptsBody]
    rw [show jEntries (.obj [(k, .obj nfs)]) = [(k, .obj nfs)] from rfl]
    rw [hA]
    dsimp only
    rw [show sortCandidates [] = [] from rfl]
    rw [show selectChannelIds [] none none = (none, none) from rfl]
    rw [stageB]
    rw [if_pos (by simp [optTruthy])]
    rw [hB]
    dsimp only
    rw [show stageC (.obj [(k, .obj nfs)]) (none, none) ⟨.str "", .str ""⟩ =
      ⟨.str "", .str ""⟩ from rfl]
    rw [if_pos (by simp [truthy])]
    rw [hscan]
  rw [extractPromptsFromWorkflow]
  rw [if_neg (by simp [truthy])]
  rw [hbody]

/-- **C1** (counterexample to the frozen claim): a graph *containing* the
described G/A/B triple but also an earlier candidate node H with both channel
inputs resolves H's producers ("bird"/"frog"), not G's ("cat"/"dog"). -/
theorem C1_counterexample :
    extractPromptsFromWorkflow (.obj [
      ("H", .obj [("inputs", .obj [("positive", .arr [.str "C", .num 0]),
                                   ("negative", .arr [.str "D", .num 0])])]),
      ("G", .obj [("inputs", .obj [("positive", .arr [.str "A", .num 0]),
                                   ("negative", .arr [.str "B", .num 0])])]),
      ("A", .obj [("class_type", .str "CLIPTextEncode"),
                  ("inputs", .obj [("text", .str "cat")])]),
      ("B", .obj [("class_type", .str "CLIPTextEncode"),
                  ("inputs", .obj [("text", .str "dog")])]),
      ("C", .obj [("class_type", .str "CLIPTextEncode"),
                  ("inputs", .obj [("text", .str "bird")])]),
      ("D", .obj [("class_type", .str "CLIPTextEncode"),
                  ("inputs", .obj [("text", .str "frog")])])]) =
      ⟨.str "bird", .str "frog"⟩ ∧
    (Prompts.mk (.str "bird") (.str "frog") ≠ Prompts.mk (.str "cat") (.str "dog")) := by
  refine ⟨rfl, ?_⟩
  intro h
  rw [Prompts.mk.injEq] at h
  simp at h

/-- **C1** (amended): in a graph whose channel scan finds exactly one
candidate node G, with `inputs.positive = ["A",0]` and
`inputs.negative = ["B",0]`, where nodes A and B are CLIPTextEncode nodes
with literal non-empty texts "cat" and "dog", `resolve` returns
`{positive: "cat", negative: "dog"}`. -/
theorem C1_channel_pair (es : List (String × JVal)) (gId : String) (gNode : JVal)
    (prio : Nat) (inG nA iA nB iB : JVal)
    (hA : stageACandidates es = .ok [⟨gId, gNode, prio⟩])
    (hgin : getField gNode "inputs" = inG)
    (hpos : getField inG "positive" = .arr [.str "A", .num 0])
    (hneg : getField inG "negative" = .arr [.str "B", .num 0])
    (hAn : getField (.obj es) "A" = nA)
    (hAtr : truthy nA = true)
    (hActs : getField nA "class_type" = .str "CLIPTextEncode")
    (hAin : getField nA "inputs" = iA)
    (hAintr : truthy iA = true)
    (hAtext : getField iA "text" = .str "cat")
    (hBn : getField (.obj es) "B" = nB)
    (hBtr : truthy nB = true)
    (hBcts : getField nB "class_type" = .str "CLIPTextEncode")
    (hBin : getField nB "inputs" = iB)
    (hBintr : truthy iB = true)
    (hBtext : getField iB "text" = .str "dog") :
    extractPromptsFromWorkflow (.obj es) = ⟨.str "cat", .str "dog"⟩ := by
  have hpe : patternEdge inG "positive" = true := by
    rw [patternEdge, hpos]
    rfl
  have hnege : patternEdge inG "negative" = true := by
    rw [patternEdge, hneg]
    rfl
  have hsel : selectChannelIds [⟨gId, gNode, prio⟩] none none = (some "A", some "B") := by
    rw [selectChannelIds, hgin]
    rw [show INPUT_PATTERNS_positive = "positive" :: ["conditioning_positive", "pos"] from rfl]
    rw [show INPUT_PATTERNS_negative =
      "negative" :: ["conditioning_negative", "nag_negative", "neg"] from rfl]
    rw [List.find?_cons_of_pos _ hpe, List.find?_cons_of_pos _ hnege]
    simp only [optTruthy]
    rw [hpos, hneg]
    rfl
  have hextA : extractTextTop (.obj es) "A" = .str "cat" :=
    extractTextTop_clip_literal _ "A" nA iA "cat" (by decide) hAn hAtr hActs hAin hAintr
      hAtext (by decide)
  have hextB : extractTextTop (.obj es) "B" = .str "dog" :=
    extractTextTop_clip_literal _ "B" nB iB "dog" (by decide) hBn hBtr hBcts hBin hBintr
      hBtext (by decide)
  have hstC : stageC (.obj es) (some "A", some "B") ⟨.str "", .str ""⟩ =
      ⟨.str "cat", .str "dog"⟩ := by
    rw [stageC]
    simp only [optTruthy]
    rw [if_pos (by simp), if_pos (by simp)]
    simp only [Option.getD]
    rw [hextA, hextB]
  have hbody : extractPromptsBody (.obj es) = .ok ⟨.str "cat", .str "dog"⟩ := by
    rw [extractPromptsBody]
    rw [show jEntries (.obj es) = es from rfl]
    rw [hA]
    dsimp only
    rw [show sortCandidates [⟨gId, gNode, prio⟩] = [⟨gId, gNode, prio⟩] from rfl]
    rw [hsel]
    rw [stageB]
    rw [if_neg (by simp [optTruthy])]
    dsimp only
    rw [hstC]
    rw [if_neg (by simp [truthy])]
  rw [extractPromptsFromWorkflow]
  rw [if_neg (by simp [truthy])]
  rw [hbody]

/-- Witness for C1: the three-node graph G/A/B itself. -/
theorem C1_channel_pair_witness :
    extractPromptsFromWorkflow (.obj [
      ("G", .obj [("inputs", .obj [("positive", .arr [.str "A", .num 0]),
                                   ("negative", .arr [.str "B", .num 0])])]),
      ("A", .obj [("class_type", .str "CLIPTextEncode"),
                  ("inputs", .obj [("text", .str "cat")])]),
      ("B", .obj [("class_type", .str "CLIPTextEncode"),
                  ("inputs", .obj [("text", .str "dog")])])]) =
      ⟨.str "cat", .str "dog"⟩ :=
  C1_channel_pair
    [("G", .obj [("inputs", .obj [("positive", .arr [.str "A", .num 0]),
                                  ("negative", .arr [.str "B", .num 0])])]),
     ("A", .obj [("class_type", .str "CLIPTextEncode"),
                 ("inputs", .obj [("text", .str "cat")])]),
     ("B", .obj [("class_type", .str "CLIPTextEncode"),
                 ("inputs", .obj [("text", .str "dog")])])]
    "G" (.obj [("inputs", .obj [("positive", .arr [.str "A", .num 0]),
                                ("negative", .arr [.str "B", .num 0])])])
    2 (.obj [("positive", .arr [.str "A", .num 0]), ("negative", .arr [.str "B", .num 0])])
    (.obj [("class_type", .str "CLIPTextEncode"), ("inputs", .obj [("text", .str "cat")])])
    (.obj [("text", .str "cat")])
    (.obj [("class_type", .str "CLIPTextEncode"), ("inputs", .obj [("text", .str "dog")])])
    (.obj [("text", .str "dog")])
    rfl rfl rfl rfl rfl rfl rfl rfl rfl rfl rfl rfl rfl rfl rfl rfl

/-- Witness for C7: the single-node graph of the claim. -/
theorem C7_single_clip_node_witness :
    extractPromptsFromWorkflow (.obj [("A", .obj [("class_type", .str "CLIPTextEncode"),
        ("inputs", .obj [("text", .str "hello")])])]) = ⟨.str "hello", .str ""⟩ :=
  C7_single_clip_node "A"
    [("class_type", .str "CLIPTextEncode"), ("inputs", .obj [("text", .str "hello")])]
    [("text", .str "hello")] ""
    rfl rfl rfl (by decide) rfl rfl rfl

theorem filter_length_mono {α : Type} (l : List α) (p q : α → Bool)
    (h : ∀ a, p a = true → q a = true) : (l.filter p).length ≤ (l.filter q).length := by
  induction l with
  | nil => simp
  | cons a l ih =>
    by_cases hp : p a = true
    · rw [List.filter_cons_of_pos hp, List.filter_cons_of_pos (h a hp)]
      simpa using ih
    · rw [List.filter_cons_of_neg (by simpa using hp)]
      by_cases hq : q a = true
      · rw [List.filter_cons_of_pos hq]
        exact ih.trans (by simp)
      · rw [List.filter_cons_of_neg (by simpa using hq)]
        exact ih

theorem filter_visited_cons_lt {l vis : List String} {x : String}
    (hx : x ∈ l) (hnx : x ∉ vis) :
    (l.filter (fun k => decide (k ∉ x :: vis))).length <
      (l.filter (fun k => decide (k ∉ vis))).length := by
  induction l with
  | nil => cases hx
  | cons a l ih =>
    by_cases hax : a = x
    · subst hax
      rw [List.filter_cons_of_neg (by simp), List.filter_cons_of_pos (by simpa using hnx)]
      have := filter_length_mono l (fun k => decide (k ∉ a :: vis)) (fun k => decide (k ∉ vis))
        (by intro b hb; simp at hb ⊢; exact hb.2)
      simp only [List.length_cons]
      omega
    · have hx' : x ∈ l := by
        rcases List.mem_cons.mp hx with h | h
        · exact absurd h.symm hax
        · exact h
      by_cases ha : a ∈ vis
      · have hmem : a ∈ x :: vis := List.mem_cons_of_mem _ ha
        rw [List.filter_cons_of_neg (by simp only [decide_eq_true_eq, not_not]; exact hmem),
          List.filter_cons_of_neg (by simp only [decide_eq_true_eq, not_not]; exact ha)]
        exact ih hx'
      · rw [List.filter_cons_of_pos (by simp [hax, ha]),
          List.filter_cons_of_pos (by simpa using ha)]
        simpa using ih hx'

theorem unvisitedKeyCount_cons_lt (w : JVal) (vis : List String) (x : String)
    (hx : x ∈ jKeys w) (hnx : x ∉ vis) :
    unvisitedKeyCount w (x :: vis) < unvisitedKeyCount w vis :=
  filter_visited_cons_lt (List.mem_dedup.mpr hx) hnx

theorem unvisitedKeyCount_suffix_le (w : JVal) (vis vis' : List String)
    (h : vis <:+ vis') : unvisitedKeyCount w vis' ≤ unvisitedKeyCount w vis := by
  apply filter_length_mono
  intro a ha
  simp only [decide_eq_true_eq] at ha ⊢
  intro hc
  exact ha (h.subset hc)

theorem truthy_getField_mem_keys (w : JVal) (k : String)
    (h : truthy (getField w k) = true) : k ∈ jKeys w := by
  cases w with
  | obj fs =>
    rcases hf : fs.find? (fun p => p.1 = k) with _ | q
    · rw [getField_obj, hf] at h
      simp [truthy] at h
    · have hq := List.find?_some hf
      have hmem := List.mem_of_find?_eq_some hf
      simp only [decide_eq_true_eq] at hq
      simp only [jKeys, jEntries]
      exact hq ▸ List.mem_map_of_mem (fun p => p.1) hmem
  | arr xs =>
    rcases hf : xs.enum.find? (fun p => toString p.1 = k) with _ | q
    · rw [show getField (.arr xs) k =
        (((xs.enum.find? (fun p => toString p.1 = k)).map (fun p => p.2)).getD .undefined)
        from rfl, hf] at h
      simp [truthy] at h
    · have hq := List.find?_some hf
      have hmem := List.mem_of_find?_eq_some hf
      simp only [decide_eq_true_eq] at hq
      simp only [jKeys, jEntries, List.map_map]
      exact hq ▸ List.mem_map_of_mem _ hmem
  | str s =>
    rcases hf : s.data.enum.find? (fun p => toString p.1 = k) with _ | q
    · rw [show getField (.str s) k =
        (((s.data.enum.find? (fun p => toString p.1 = k)).map
          (fun p => JVal.str (String.mk [p.2]))).getD .undefined) from rfl, hf] at h
      simp [truthy] at h
    · have hq := List.find?_some hf
      have hmem := List.mem_of_find?_eq_some hf
      simp only [decide_eq_true_eq] at hq
      simp only [jKeys, jEntries, List.map_map]
      exact hq ▸ List.mem_map_of_mem _ hmem
  | undefined => simp [getField, truthy] at h
  | jnull => simp [getField, truthy] at h
  | bool b => simp [getField, truthy] at h
  | num n => simp [getField, truthy] at h

theorem concatLoop_suffix (extract : String → List String → Option (JVal × List String))
    (hex : ∀ id vis r, extract id vis = some r → vis <:+ r.2) (inputs : JVal) :
    ∀ is vis acc r, concatLoop extract inputs is vis acc = some r → vis <:+ r.2 := by
  intro is
  induction is with
  | nil =>
    intro vis acc r h
    rw [concatLoop] at h
    cases h
    exact List.suffix_refl _
  | cons i is ih =>
    intro vis acc r h
    rw [concatLoop] at h
    split at h
    · split at h
      next heq =>
        exact Option.noConfusion h
      next r' heq =>
        exact (hex _ _ _ heq).trans (ih _ _ _ h)
    · exact ih _ _ _ h


theorem extractTextFromNode_suffix (w : JVal) :
    ∀ fuel id vis r, extractTextFromNode w fuel id vis = some r → vis <:+ r.2 := by
  intro fuel
  induction fuel with
  | zero =>
    intro id vis r h
    rw [extractTextFromNode] at h
    exact Option.noConfusion h
  | succ fuel ih =>
    intro id vis r h
    rw [extractTextFromNode] at h
    have hcons : vis <:+ id :: vis := List.suffix_cons id vis
    have htr : ∀ v r', extractTextFromNode w fuel v (id :: vis) = some r' → vis <:+ r'.2 :=
      fun v r' hh => hcons.trans (ih v _ r' hh)
    generalize getField w id = node at h
    generalize getField node "inputs" = inputs at h
    by_cases h1 : id = "" ∨ id ∈ vis
    · rw [if_pos h1] at h
      cases h
      exact List.suffix_refl _
    rw [if_neg h1] at h
    by_cases h2 : ¬ truthy node = true
    · rw [if_pos h2] at h
      cases h
      exact hcons
    rw [if_neg h2] at h
    by_cases hA : classTypeIs node "ImpactWildcardProcessor" = true ∧ truthy inputs = true
    · rw [if_pos hA] at h
      cases h
      exact hcons
    rw [if_neg hA] at h
    by_cases hB : classTypeIs node "PCLazyTextEncode" = true ∧ truthy inputs = true ∧
        truthy (getField inputs "text") = true
    · rw [if_pos hB] at h
      by_cases hr : isArr (getField inputs "text") = true
      · rw [if_pos hr] at h
        exact htr _ _ h
      · rw [if_neg hr] at h
        cases h
        exact hcons
    rw [if_neg hB] at h
    by_cases hC : classTypeIs node "ChromaPaddingRemoval" = true ∧ truthy inputs = true ∧
        truthy (getField inputs "conditioning") = true
    · rw [if_pos hC] at h
      by_cases hr : isArr (getField inputs "conditioning") = true
      · rw [if_pos hr] at h
        exact htr _ _ h
      · rw [if_neg hr] at h
        cases h
        exact hcons
    rw [if_neg hC] at h
    by_cases hD : classTypeIs node "ImpactConcatConditionings" = true ∧ truthy inputs = true
    · rw [if_pos hD] at h
      rcases hq : concatLoop (fun id vis => extractTextFromNode w fuel id vis) inputs
          [1, 2, 3, 4, 5, 6, 7, 8, 9, 10] (id :: vis) [] with _ | r'
      · rw [hq] at h
        exact Option.noConfusion h
      · rw [hq] at h
        have h' : some (JVal.str (jsArrayJoin r'.1 "\n\n"), r'.2) = some r := h
        cases h'
        exact hcons.trans (concatLoop_suffix _ (fun a b c hh => ih a b c hh) _ _ _ _ _ hq)
    rw [if_neg hD] at h
    by_cases hE : classTypeIs node "CLIPTextEncode" = true ∧ truthy inputs = true ∧
        truthy (getField inputs "text") = true
    · rw [if_pos hE] at h
      by_cases hr : isArr (getField inputs "text") = true
      · rw [if_pos hr] at h
        exact htr _ _ h
      · rw [if_neg hr] at h
        cases h
        exact hcons
    rw [if_neg hE] at h
    by_cases hF : classTypeIs node "CLIPTextEncodeFlux" = true ∧ truthy inputs = true
    · rw [if_pos hF] at h
      by_cases hr : isArr (jor (getField inputs "clip_l")
          (jor (getField inputs "t5xxl") (.str ""))) = true
      · rw [if_pos hr] at h
        exact htr _ _ h
      · rw [if_neg hr] at h
        cases h
        exact hcons
    rw [if_neg hF] at h
    by_cases hG : classTypeIs node "StringConcatenate" = true ∧ truthy inputs = true
    · rw [if_pos hG] at h
      rcases hq1 : (if truthy (getField inputs "string_a") = true then
          if isArr (getField inputs "string_a") = true then
            match extractTextFromNode w fuel
                (jToString (jIndex (getField inputs "string_a") 0)) (id :: vis) with
            | none => none
            | some r => some ([r.1], r.2)
          else some ([getField inputs "string_a"], id :: vis)
        else some (([] : List JVal), id :: vis)) with _ | s1
      · rw [hq1] at h
        exact Option.noConfusion h
      · rw [hq1] at h
        have hs1 : id :: vis <:+ s1.2 := by
          split at hq1
          · split at hq1
            · rcases hq : extractTextFromNode w fuel
                  (jToString (jIndex (getField inputs "string_a") 0)) (id :: vis) with _ | r2
              · rw [hq] at hq1
                exact Option.noConfusion hq1
              · rw [hq] at hq1
                have h1' : some ([r2.1], r2.2) = some s1 := hq1
                cases h1'
                exact ih _ _ _ hq
            · cases hq1
              exact List.suffix_refl _
          · cases hq1
            exact List.suffix_refl _
        replace h : (match (if truthy (getField inputs "string_b") = true then
            if isArr (getField inputs "string_b") = true then
              match extractTextFromNode w fuel
                  (jToString (jIndex (getField inputs "string_b") 0)) s1.2 with
              | none => none
              | some r => some (s1.1 ++ [r.1], r.2)
            else some (s1.1 ++ [getField inputs "string_b"], s1.2)
          else some (s1.1, s1.2)) with
          | none => none
          | some s2 => some (JVal.str (jsArrayJoin s2.1
              (jToString (jor (getField inputs "delimiter") (.str "")))), s2.2)) = some r := h
        rcases hq2 : (if truthy (getField inputs "string_b") = true then
            if isArr (getField inputs "string_b") = true then
              match extractTextFromNode w fuel
                  (jToString (jIndex (getField inputs "string_b") 0)) s1.2 with
              | none => none
              | some r => some (s1.1 ++ [r.1], r.2)
            else some (s1.1 ++ [getField inputs "string_b"], s1.2)
          else some (s1.1, s1.2)) with _ | s2
        · rw [hq2] at h
          exact Option.noConfusion h
        · rw [hq2] at h
          have h' : some (JVal.str (jsArrayJoin s2.1
              (jToString (jor (getField inputs "delimiter") (.str "")))), s2.2) = some r := h
          cases h'
          have hs2 : s1.2 <:+ s2.2 := by
            split at hq2
            · split at hq2
              · rcases hq : extractTextFromNode w fuel
                    (jToString (jIndex (getField inputs "string_b") 0)) s1.2 with _ | r2
                · rw [hq] at hq2
                  exact Option.noConfusion hq2
                · rw [hq] at hq2
                  have h2' : some (s1.1 ++ [r2.1], r2.2) = some s2 := hq2
                  cases h2'
                  exact ih _ _ _ hq
              · cases hq2
                exact List.suffix_refl _
            · cases hq2
              exact List.suffix_refl _
          exact (hcons.trans hs1).trans hs2
    rw [if_neg hG] at h
    by_cases hH : classTypeIs node "String Literal" = true ∧ truthy inputs = true ∧
        ¬ isUndefined (getField inputs "string") = true
    · rw [if_pos hH] at h
      cases h
      exact hcons
    rw [if_neg hH] at h
    by_cases hI : classTypeIs node "TextEncodeQwenImageEdit" = true ∧ truthy inputs = true ∧
        truthy (getField inputs "prompt") = true
    · rw [if_pos hI] at h
      by_cases hr : isArr (getField inputs "prompt") = true
      · rw [if_pos hr] at h
        exact htr _ _ h
      · rw [if_neg hr] at h
        cases h
        exact hcons
    rw [if_neg hI] at h
    cases h
    exact hcons

theorem concatLoop_isSome (w : JVal) (fuel : Nat) (inputs : JVal)
    (hex : ∀ id vis, unvisitedKeyCount w vis < fuel →
      (extractTextFromNode w fuel id vis).isSome = true) :
    ∀ is vis acc, unvisitedKeyCount w vis < fuel →
      (concatLoop (fun id vis => extractTextFromNode w fuel id vis) inputs is vis
        acc).isSome = true := by
  intro is
  induction is with
  | nil =>
    intro vis acc hlt
    rw [concatLoop]
    rfl
  | cons i is ih =>
    intro vis acc hlt
    rw [concatLoop]
    split
    · rcases hq : extractTextFromNode w fuel
          (jToString (jIndex (getField inputs ("conditioning" ++ toString i)) 0)) vis with _ | r'
      · exfalso
        have hs := hex (jToString (jIndex (getField inputs ("conditioning" ++ toString i)) 0))
          vis hlt
        rw [hq] at hs
        exact Bool.noConfusion hs
      · have hsuf := extractTextFromNode_suffix w fuel _ _ _ hq
        have hle := unvisitedKeyCount_suffix_le w vis r'.2 hsuf
        exact ih r'.2 _ (by omega)
    · exact ih vis acc hlt

theorem extractTextFromNode_isSome (w : JVal) :
    ∀ fuel id vis, unvisitedKeyCount w vis < fuel →
      (extractTextFromNode w fuel id vis).isSome = true := by
  intro fuel
  induction fuel with
  | zero =>
    intro id vis h
    exact absurd h (Nat.not_lt_zero _)
  | succ fuel ih =>
    intro id vis hlt
    rw [extractTextFromNode]
    by_cases h1 : id = "" ∨ id ∈ vis
    · rw [if_pos h1]
      rfl
    rw [if_neg h1]
    generalize hg : getField w id = node
    by_cases h2 : ¬ truthy node = true
    · rw [if_pos h2]
      rfl
    rw [if_neg h2]
    have hmem : id ∈ jKeys w := truthy_getField_mem_keys w id (hg ▸ not_not.mp h2)
    have hnv : id ∉ vis := fun hc => h1 (Or.inr hc)
    have hlt' : unvisitedKeyCount w (id :: vis) < fuel := by
      have := unvisitedKeyCount_cons_lt w vis id hmem hnv
      omega
    have htr : ∀ v, (extractTextFromNode w fuel v (id :: vis)).isSome = true :=
      fun v => ih v _ hlt'
    generalize getField node "inputs" = inputs
    by_cases hA : classTypeIs node "ImpactWildcardProcessor" = true ∧ truthy inputs = true
    · rw [if_pos hA]
      rfl
    rw [if_neg hA]
    by_cases hB : classTypeIs node "PCLazyTextEncode" = true ∧ truthy inputs = true ∧
        truthy (getField inputs "text") = true
    · rw [if_pos hB]
      by_cases hr : isArr (getField inputs "text") = true
      · rw [if_pos hr]
        exact htr _
      · rw [if_neg hr]
        rfl
    rw [if_neg hB]
    by_cases hC : classTypeIs node "ChromaPaddingRemoval" = true ∧ truthy inputs = true ∧
        truthy (getField inputs "conditioning") = true
    · rw [if_pos hC]
      by_cases hr : isArr (getField inputs "conditioning") = true
      · rw [if_pos hr]
        exact htr _
      · rw [if_neg hr]
        rfl
    rw [if_neg hC]
    by_cases hD : classTypeIs node "ImpactConcatConditionings" = true ∧ truthy inputs = true
    · rw [if_pos hD]
      rcases hq : concatLoop (fun id vis => extractTextFromNode w fuel id vis) inputs
          [1, 2, 3, 4, 5, 6, 7, 8, 9, 10] (id :: vis) [] with _ | r'
      · exfalso
        have hs := concatLoop_isSome w fuel inputs (fun a b hb => ih a b hb)
          [1, 2, 3, 4, 5, 6, 7, 8, 9, 10] (id :: vis) [] hlt'
        rw [hq] at hs
        exact Bool.noConfusion hs
      · rfl
    rw [if_neg hD]
    by_cases hE : classTypeIs node "CLIPTextEncode" = true ∧ truthy inputs = true ∧
        truthy (getField inputs "text") = true
    · rw [if_pos hE]
      by_cases hr : isArr (getField inputs "text") = true
      · rw [if_pos hr]
        exact htr _
      · rw [if_neg hr]
        rfl
    rw [if_neg hE]
    by_cases hF : classTypeIs node "CLIPTextEncodeFlux" = true ∧ truthy inputs = true
    · rw [if_pos hF]
      by_cases hr : isArr (jor (getField inputs "clip_l")
          (jor (getField inputs "t5xxl") (.str ""))) = true
      · rw [if_pos hr]
        exact htr _
      · rw [if_neg hr]
        rfl
    rw [if_neg hF]
    by_cases hG : classTypeIs node "StringConcatenate" = true ∧ truthy inputs = true
    · rw [if_pos hG]
      rcases hq1 : (if truthy (getField inputs "string_a") = true then
          if isArr (getField inputs "string_a") = true then
            match extractTextFromNode w fuel
                (jToString (jIndex (getField inputs "string_a") 0)) (id :: vis) with
            | none => none
            | some r => some ([r.1], r.2)
          else some ([getField inputs "string_a"], id :: vis)
        else some (([] : List JVal), id :: vis)) with _ | s1
      · exfalso
        revert hq1
        split
        · split
          · rcases hq : extractTextFromNode w fuel
                (jToString (jIndex (getField inputs "string_a") 0)) (id :: vis) with _ | r2
            · exfalso
              have hs := htr (jToString (jIndex (getField inputs "string_a") 0))
              rw [hq] at hs
              exact Bool.noConfusion hs
            · intro hc
              exact Option.noConfusion hc
          · intro hc
            exact Option.noConfusion hc
        · intro hc
          exact Option.noConfusion hc
      · rw [hq1]
        have hs1 : id :: vis <:+ s1.2 := by
          split at hq1
          · split at hq1
            · rcases hq : extractTextFromNode w fuel
                  (jToString (jIndex (getField inputs "string_a") 0)) (id :: vis) with _ | r2
              · rw [hq] at hq1
                exact Option.noConfusion hq1
              · rw [hq] at hq1
                have h1' : some ([r2.1], r2.2) = some s1 := hq1
                cases h1'
                exact extractTextFromNode_suffix w fuel _ _ _ hq
            · cases hq1
              exact List.suffix_refl _
          · cases hq1
            exact List.suffix_refl _
        have hlt2 : unvisitedKeyCount w s1.2 < fuel := by
          have := unvisitedKeyCount_suffix_le w (id :: vis) s1.2 hs1
          omega
        rcases hq2 : (if truthy (getField inputs "string_b") = true then
            if isArr (getField inputs "string_b") = true then
              match extractTextFromNode w fuel
                  (jToString (jIndex (getField inputs "string_b") 0)) s1.2 with
              | none => none
              | some r => some (s1.1 ++ [r.1], r.2)
            else some (s1.1 ++ [getField inputs "string_b"], s1.2)
          else some (s1.1, s1.2)) with _ | s2
        · exfalso
          revert hq2
          split
          · split
            · rcases hq : extractTextFromNode w fuel
                  (jToString (jIndex (getField inputs "string_b") 0)) s1.2 with _ | r2
              · exfalso
                have hs := ih (jToString (jIndex (getField inputs "string_b") 0)) s1.2 hlt2
                rw [hq] at hs
                exact Bool.noConfusion hs
              · intro hc
                exact Option.noConfusion hc
            · intro hc
              exact Option.noConfusion hc
          · intro hc
            exact Option.noConfusion hc
        · show (match (if truthy (getField inputs "string_b") = true then
              if isArr (getField inputs "string_b") = true then
                match extractTextFromNode w fuel
                    (jToString (jIndex (getField inputs "string_b") 0)) s1.2 with
                | none => none
                | some r => some (s1.1 ++ [r.1], r.2)
              else some (s1.1 ++ [getField inputs "string_b"], s1.2)
            else some (s1.1, s1.2)) with
            | none => (none : Option (JVal × List String))
            | some s2 => some (JVal.str (jsArrayJoin s2.1
                (jToString (jor (getField inputs "delimiter") (.str "")))), s2.2)).isSome = true
          rw [hq2]
          rfl
    rw [if_neg hG]
    by_cases hH : classTypeIs node "String Literal" = true ∧ truthy inputs = true ∧
        ¬ isUndefined (getField inputs "string") = true
    · rw [if_pos hH]
      rfl
    rw [if_neg hH]
    by_cases hI : classTypeIs node "TextEncodeQwenImageEdit" = true ∧ truthy inputs = true ∧
        truthy (getField inputs "prompt") = true
    · rw [if_pos hI]
      by_cases hr : isArr (getField inputs "prompt") = true
      · rw [if_pos hr]
        exact htr _
      · rw [if_neg hr]
        rfl
    rw [if_neg hI]
    rfl

/-- **C6**: Stage C text extraction terminates on every graph — with fuel
exceeding the number of distinct unvisited workflow keys (which the
program's top-level call supplies via `fuelFor`), the recursion always
produces a result; a node id already in the visited set (a direct or
transitive cycle) resolves immediately to the empty string; and an id naming
a missing (or otherwise falsy) node resolves to the empty string without
raising. -/
theorem C6_extract_terminates_cycle_missing :
    (∀ (w : JVal) (fuel : Nat) (nodeId : String) (visited : List String),
      unvisitedKeyCount w visited < fuel →
        (extractTextFromNode w fuel nodeId visited).isSome = true) ∧
    (∀ (w : JVal) (nodeId : String),
      (extractTextFromNode w (fuelFor w) nodeId []).isSome = true) ∧
    (∀ (w : JVal) (fuel : Nat) (nodeId : String) (visited : List String),
      nodeId ∈ visited →
        extractTextFromNode w (fuel + 1) nodeId visited = some (.str "", visited)) ∧
    (∀ (w : JVal) (fuel : Nat) (nodeId : String) (visited : List String),
      nodeId ∉ visited → nodeId ≠ "" → truthy (getField w nodeId) = false →
        extractTextFromNode w (fuel + 1) nodeId visited =
          some (.str "", nodeId :: visited)) := by
  refine ⟨fun w fuel id vis h => extractTextFromNode_isSome w fuel id vis h, ?_, ?_, ?_⟩
  · intro w id
    apply extractTextFromNode_isSome
    have hc : unvisitedKeyCount w [] = ((jKeys w).dedup).length := by
      unfold unvisitedKeyCount
      simp
    rw [hc, fuelFor]
    omega
  · intro w fuel id vis hmem
    rw [extractTextFromNode, if_pos (Or.inr hmem)]
  · intro w fuel id vis hnv hne hf
    rw [extractTextFromNode, if_neg (by simp [hne, hnv]), if_pos (by simp [hf])]

/-- Witness for C6: termination on a two-node graph, a direct self-cycle
resolving to `""`, and a dangling producer id resolving to `""`. -/
theorem C6_extract_terminates_cycle_missing_witness :
    (extractTextFromNode (.obj [("A", .obj [("class_type", .str "CLIPTextEncode"),
        ("inputs", .obj [("text", .arr [.str "A", .num 0])])])]) 2 "A" []).isSome = true ∧
    extractTextFromNode (.obj []) (0 + 1) "A" ["A"] = some (.str "", ["A"]) ∧
    extractTextFromNode (.obj []) (0 + 1) "A" [] = some (.str "", ["A"]) :=
  ⟨C6_extract_terminates_cycle_missing.1 _ 2 "A" [] (by decide),
   C6_extract_terminates_cycle_missing.2.2.1 (.obj []) 0 "A" ["A"] (by simp),
   C6_extract_terminates_cycle_missing.2.2.2 (.obj []) 0 "A" [] (by simp) (by decide) rfl⟩

/-! ## Truncation behaviour of the chunk scan (C3) -/

/-- A chunk whose 8-byte length+type header itself runs past the end of the
buffer makes the scan throw: one of the five header reads is out of range. -/
theorem parseChunks_header_truncated (bytes : List Nat) (offset : Nat)
    (acc : List (String × String)) (h1 : offset < bytes.length)
    (h2 : bytes.length < offset + 8) :
    parseChunks bytes offset acc = .error () := by
  have h7 : getUint8 bytes (offset+7) = .error () := getUint8_oob _ _ (by omega)
  rw [parseChunks, dif_pos h1]
  cases h0 : getUint32 bytes offset with
  | error u => rfl
  | ok len =>
    cases hb0 : getUint8 bytes (offset+4) with
    | error u => rfl
    | ok t0 =>
      cases hb1 : getUint8 bytes (offset+5) with
      | error u => rfl
      | ok t1 =>
        cases hb2 : getUint8 bytes (offset+6) with
        | error u => rfl
        | ok t2 =>
          rw [h7]

/-- A `tEXt`/`iTXt` chunk whose declared payload length overruns the buffer
makes the scan throw (the payload slice is out of range). -/
theorem parseChunks_text_overrun (pre dataPart : List Nat) (n t0 t1 t2 t3 : Nat)
    (acc : List (String × String)) (hn : n < 2^32) (hlt : dataPart.length < n)
    (htext : String.mk [Char.ofNat t0, Char.ofNat t1, Char.ofNat t2, Char.ofNat t3] = "tEXt" ∨
      String.mk [Char.ofNat t0, Char.ofNat t1, Char.ofNat t2, Char.ofNat t3] = "iTXt") :
    parseChunks (pre ++ (u32be n ++ (t0 :: t1 :: t2 :: t3 :: dataPart))) pre.length acc =
      .error () := by
  have htotal : (pre ++ (u32be n ++ (t0 :: t1 :: t2 :: t3 :: dataPart))).length =
      pre.length + 8 + dataPart.length := by
    simp [u32be]
    omega
  have hu32 : getUint32 (pre ++ (u32be n ++ (t0 :: t1 :: t2 :: t3 :: dataPart))) pre.length
      = .ok n := getUint32_append_u32be pre n _ hn
  have hprelen2 : (pre ++ u32be n).length = pre.length + 4 := by simp [u32be]
  have harr2 : pre ++ (u32be n ++ (t0 :: t1 :: t2 :: t3 :: dataPart)) =
      (pre ++ u32be n) ++ (t0 :: t1 :: t2 :: t3 :: dataPart) := by
    simp [List.append_assoc]
  have ht0 : getUint8 (pre ++ (u32be n ++ (t0 :: t1 :: t2 :: t3 :: dataPart)))
      (pre.length + 4) = .ok t0 := by
    rw [harr2]
    have h := getUint8_append (pre ++ u32be n) (t0 :: t1 :: t2 :: t3 :: dataPart) 0 (by simp)
    rw [hprelen2] at h
    simpa using h
  have ht1 : getUint8 (pre ++ (u32be n ++ (t0 :: t1 :: t2 :: t3 :: dataPart)))
      (pre.length + 4 + 1) = .ok t1 := by
    rw [harr2]
    have h := getUint8_append (pre ++ u32be n) (t0 :: t1 :: t2 :: t3 :: dataPart) 1 (by simp)
    rw [hprelen2] at h
    simpa using h
  have ht2 : getUint8 (pre ++ (u32be n ++ (t0 :: t1 :: t2 :: t3 :: dataPart)))
      (pre.length + 4 + 2) = .ok t2 := by
    rw [harr2]
    have h := getUint8_append (pre ++ u32be n) (t0 :: t1 :: t2 :: t3 :: dataPart) 2 (by simp)
    rw [hprelen2] at h
    simpa using h
  have ht3 : getUint8 (pre ++ (u32be n ++ (t0 :: t1 :: t2 :: t3 :: dataPart)))
      (pre.length + 4 + 3) = .ok t3 := by
    rw [harr2]
    have h := getUint8_append (pre ++ u32be n) (t0 :: t1 :: t2 :: t3 :: dataPart) 3 (by simp)
    rw [hprelen2] at h
    simpa using h
  rw [parseChunks]
  rw [dif_pos (by rw [htotal]; omega)]
  rw [hu32, ht0, ht1, ht2, ht3]
  dsimp only
  rw [if_pos htext]
  rw [if_neg (by rw [htotal]; omega)]

/-- A non-text chunk (also not `IEND`) whose declared length skips past the
buffer end: no slice is taken, the next loop iteration finds the offset beyond
the end, and the scan returns the entries accumulated so far. -/
theorem parseChunks_nontext_overrun (pre dataPart : List Nat) (n t0 t1 t2 t3 : Nat)
    (acc : List (String × String)) (hn : n < 2^32) (hlt : dataPart.length < n)
    (htext : ¬ (String.mk [Char.ofNat t0, Char.ofNat t1, Char.ofNat t2, Char.ofNat t3] = "tEXt" ∨
      String.mk [Char.ofNat t0, Char.ofNat t1, Char.ofNat t2, Char.ofNat t3] = "iTXt"))
    (hiend : String.mk [Char.ofNat t0, Char.ofNat t1, Char.ofNat t2, Char.ofNat t3] ≠ "IEND") :
    parseChunks (pre ++ (u32be n ++ (t0 :: t1 :: t2 :: t3 :: dataPart))) pre.length acc =
      .ok acc := by
  have htotal : (pre ++ (u32be n ++ (t0 :: t1 :: t2 :: t3 :: dataPart))).length =
      pre.length + 8 + dataPart.length := by
    simp [u32be]
    omega
  have hu32 : getUint32 (pre ++ (u32be n ++ (t0 :: t1 :: t2 :: t3 :: dataPart))) pre.length
      = .ok n := getUint32_append_u32be pre n _ hn
  have hprelen2 : (pre ++ u32be n).length = pre.length + 4 := by simp [u32be]
  have harr2 : pre ++ (u32be n ++ (t0 :: t1 :: t2 :: t3 :: dataPart)) =
      (pre ++ u32be n) ++ (t0 :: t1 :: t2 :: t3 :: dataPart) := by
    simp [List.append_assoc]
  have ht0 : getUint8 (pre ++ (u32be n ++ (t0 :: t1 :: t2 :: t3 :: dataPart)))
      (pre.length + 4) = .ok t0 := by
    rw [harr2]
    have h := getUint8_append (pre ++ u32be n) (t0 :: t1 :: t2 :: t3 :: dataPart) 0 (by simp)
    rw [hprelen2] at h
    simpa using h
  have ht1 : getUint8 (pre ++ (u32be n ++ (t0 :: t1 :: t2 :: t3 :: dataPart)))
      (pre.length + 4 + 1) = .ok t1 := by
    rw [harr2]
    have h := getUint8_append (pre ++ u32be n) (t0 :: t1 :: t2 :: t3 :: dataPart) 1 (by simp)
    rw [hprelen2] at h
    simpa using h
  have ht2 : getUint8 (pre ++ (u32be n ++ (t0 :: t1 :: t2 :: t3 :: dataPart)))
      (pre.length + 4 + 2) = .ok t2 := by
    rw [harr2]
    have h := getUint8_append (pre ++ u32be n) (t0 :: t1 :: t2 :: t3 :: dataPart) 2 (by simp)
    rw [hprelen2] at h
    simpa using h
  have ht3 : getUint8 (pre ++ (u32be n ++ (t0 :: t1 :: t2 :: t3 :: dataPart)))
      (pre.length + 4 + 3) = .ok t3 := by
    rw [harr2]
    have h := getUint8_append (pre ++ u32be n) (t0 :: t1 :: t2 :: t3 :: dataPart) 3 (by simp)
    rw [hprelen2] at h
    simpa using h
  rw [parseChunks]
  rw [dif_pos (by rw [htotal]; omega)]
  rw [hu32, ht0, ht1, ht2, ht3]
  dsimp only
  rw [if_neg htext]
  dsimp only
  rw [if_neg hiend]
  rw [parseChunks]
  rw [dif_neg (by rw [htotal]; omega)]

/-- Running the scan over a serialized run of well-formed chunks none of which
is `IEND` advances the offset past the run and accumulates its entries,
whatever bytes follow. -/
theorem parseChunks_chunksBytes_cont (cs : List PNGChunk) (pre rest : List Nat)
    (acc : List (String × String)) (hwf : ∀ c ∈ cs, chunkWF c)
    (hni : ∀ c ∈ cs, chunkTypeName c ≠ "IEND") :
    parseChunks (pre ++ (chunksBytes cs ++ rest)) pre.length acc =
      parseChunks (pre ++ (chunksBytes cs ++ rest)) (pre.length + (chunksBytes cs).length)
        (processChunks cs acc) := by
  induction cs generalizing pre acc with
  | nil =>
    simp only [chunksBytes, List.map_nil, List.flatten_nil, List.nil_append,
      List.length_nil, Nat.add_zero, processChunks]
  | cons c cs ih =>
    have hwfc := hwf c (by simp)
    have hne := hni c (by simp)
    have harr : pre ++ (chunksBytes (c :: cs) ++ rest) =
        pre ++ chunkBytes c ++ (chunksBytes cs ++ rest) := by
      simp [chunksBytes, List.append_assoc]
    rw [harr]
    rw [parseChunks_step pre c (chunksBytes cs ++ rest) acc hwfc]
    dsimp only
    rw [processChunks]
    rw [if_neg hne, if_neg hne]
    have hlenb : pre.length + (chunkBytes c).length = (pre ++ chunkBytes c).length := by
      simp
    have hlenc : pre.length + (chunksBytes (c :: cs)).length =
        (pre ++ chunkBytes c).length + (chunksBytes cs).length := by
      simp [chunksBytes]
      omega
    rw [hlenb, hlenc]
    exact ih (pre ++ chunkBytes c) _ (fun d hd => hwf d (by simp [hd]))
      (fun d hd => hni d (by simp [hd]))

/-- **C3** (amended): once the 8-byte signature has matched, `read` never
returns null — it either returns a mapping or lets an exception escape to the
caller — and truncation behaves case by case as follows.  After any serialized
run of well-formed non-`IEND` chunks: (a) a final fragment of fewer than 8
bytes (a truncated length+type header) makes `read` throw; (b) a `tEXt`/`iTXt`
chunk whose declared payload length overruns the remaining bytes makes `read`
throw; (c) a non-text, non-`IEND` chunk whose declared length skips past the
buffer end makes the scan stop and `read` return exactly the mapping
accumulated from the preceding chunks. -/
theorem C3_truncated_behavior :
    (∀ bytes : List Nat, bytes.take 8 = pngSignature →
        parsePNGMetadata bytes = .error () ∨ ∃ m, parsePNGMetadata bytes = .ok (some m)) ∧
    (∀ (cs : List PNGChunk) (hdr : List Nat), (∀ c ∈ cs, chunkWF c) →
        (∀ c ∈ cs, chunkTypeName c ≠ "IEND") → hdr ≠ [] → hdr.length < 8 →
        parsePNGMetadata (pngSignature ++ (chunksBytes cs ++ hdr)) = .error ()) ∧
    (∀ (cs : List PNGChunk) (n t0 t1 t2 t3 : Nat) (dataPart : List Nat),
        (∀ c ∈ cs, chunkWF c) → (∀ c ∈ cs, chunkTypeName c ≠ "IEND") →
        n < 2^32 → dataPart.length < n →
        (String.mk [Char.ofNat t0, Char.ofNat t1, Char.ofNat t2, Char.ofNat t3] = "tEXt" ∨
          String.mk [Char.ofNat t0, Char.ofNat t1, Char.ofNat t2, Char.ofNat t3] = "iTXt") →
        parsePNGMetadata (pngSignature ++ (chunksBytes cs ++
          (u32be n ++ (t0 :: t1 :: t2 :: t3 :: dataPart)))) = .error ()) ∧
    (∀ (cs : List PNGChunk) (n t0 t1 t2 t3 : Nat) (dataPart : List Nat),
        (∀ c ∈ cs, chunkWF c) → (∀ c ∈ cs, chunkTypeName c ≠ "IEND") →
        n < 2^32 → dataPart.length < n →
        ¬ (String.mk [Char.ofNat t0, Char.ofNat t1, Char.ofNat t2, Char.ofNat t3] = "tEXt" ∨
          String.mk [Char.ofNat t0, Char.ofNat t1, Char.ofNat t2, Char.ofNat t3] = "iTXt") →
        String.mk [Char.ofNat t0, Char.ofNat t1, Char.ofNat t2, Char.ofNat t3] ≠ "IEND" →
        parsePNGMetadata (pngSignature ++ (chunksBytes cs ++
          (u32be n ++ (t0 :: t1 :: t2 :: t3 :: dataPart)))) =
          .ok (some (processChunks cs []))) := by
  have hplen : pngSignature.length = 8 := by decide
  have hlift : ∀ (cs : List PNGChunk) (tail : List Nat), (∀ c ∈ cs, chunkWF c) →
      (∀ c ∈ cs, chunkTypeName c ≠ "IEND") →
      parsePNGMetadata (pngSignature ++ (chunksBytes cs ++ tail)) =
        (parseChunks ((pngSignature ++ chunksBytes cs) ++ tail)
          (pngSignature ++ chunksBytes cs).length (processChunks cs [])).map some := by
    intro cs tail hwf hni
    have hsig : checkSignatureFrom (pngSignature ++ (chunksBytes cs ++ tail)) 0 = .ok true :=
      checkSignatureFrom_append _ 0
    simp only [parsePNGMetadata, hsig]
    have hcont := parseChunks_chunksBytes_cont cs pngSignature tail [] hwf hni
    rw [hplen] at hcont
    rw [hcont]
    have harr : pngSignature ++ (chunksBytes cs ++ tail) =
        (pngSignature ++ chunksBytes cs) ++ tail := by
      simp [List.append_assoc]
    have hoff : 8 + (chunksBytes cs).length = (pngSignature ++ chunksBytes cs).length := by
      simp [hplen]
    rw [harr, hoff]
  refine ⟨?_, ?_, ?_, ?_⟩
  · intro bytes h
    have hsig : checkSignatureFrom bytes 0 = .ok true := checkSignatureFrom_take bytes h
    simp only [parsePNGMetadata, hsig]
    cases hp : parseChunks bytes 8 [] with
    | error e => left; rfl
    | ok m => right; exact ⟨m, rfl⟩
  · intro cs hdr hwf hni hne hlen
    rw [hlift cs hdr hwf hni]
    rw [parseChunks_header_truncated _ _ _
      (by simp only [List.length_append]; have := List.length_pos.mpr hne; omega)
      (by simp only [List.length_append]; omega)]
    rfl
  · intro cs n t0 t1 t2 t3 dataPart hwf hni hn hlt htext
    rw [hlift cs _ hwf hni]
    rw [parseChunks_text_overrun _ _ _ _ _ _ _ _ hn hlt htext]
    rfl
  · intro cs n t0 t1 t2 t3 dataPart hwf hni hn hlt htext hiend
    rw [hlift cs _ hwf hni]
    rw [parseChunks_nontext_overrun _ _ _ _ _ _ _ _ hn hlt htext hiend]
    rfl

/-- Witness for C3: the never-null dichotomy on the counterexample buffer; a
4-byte final fragment after an empty chunk run throws; a `tEXt` chunk declaring
5 payload bytes but supplying 1 throws; an `IHDR` chunk declaring 5 payload
bytes but supplying 2, after a complete `tEXt` chunk, returns the mapping
accumulated from that chunk. -/
theorem C3_truncated_behavior_witness :
    (parsePNGMetadata (pngSignature ++ [0]) = .error () ∨
      ∃ m, parsePNGMetadata (pngSignature ++ [0]) = .ok (some m)) ∧
    parsePNGMetadata (pngSignature ++ (chunksBytes [] ++ [0, 0, 0, 1])) = .error () ∧
    parsePNGMetadata (pngSignature ++ (chunksBytes [] ++
      (u32be 5 ++ (116 :: 69 :: 88 :: 116 :: [97])))) = .error () ∧
    parsePNGMetadata (pngSignature ++
      (chunksBytes [⟨[116, 69, 88, 116], [107, 0, 118], [0, 0, 0, 0]⟩] ++
        (u32be 5 ++ (73 :: 72 :: 68 :: 82 :: [1, 2])))) =
      .ok (some (processChunks [⟨[116, 69, 88, 116], [107, 0, 118], [0, 0, 0, 0]⟩] [])) :=
  ⟨C3_truncated_behavior.1 _ (by decide),
   C3_truncated_behavior.2.1 [] [0, 0, 0, 1] (by simp) (by simp) (by decide) (by decide),
   C3_truncated_behavior.2.2.1 [] 5 116 69 88 116 [97] (by simp) (by simp)
     (by decide) (by decide) (by decide),
   C3_truncated_behavior.2.2.2 [⟨[116, 69, 88, 116], [107, 0, 118], [0, 0, 0, 0]⟩]
     5 73 72 68 82 [1, 2]
     (List.forall_mem_singleton.mpr (by decide))
     (List.forall_mem_singleton.mpr (by decide))
     (by decide) (by decide) (by decide) (by decide)⟩
